import Mathlib

/-!
Verification of the nirvana-threat-detector data pipeline.

The Python sources are shallowly embedded:
* `src/pcap_converter.py`  — packet feature extraction, connection
  aggregation (pandas groupby + left merge), port categorization;
* `src/samples/Data cleaner/reorganize_csv.py` — the flow normalizer
  (`rearrange_threat_data`) over a column-oriented table model;
* `src/ntd-client.py` — `load_data` (global `fillna(0)`) and
  `_display_results` (threat ranking, llm-analysis rendering).

Numbers are embedded as `Rat` (exact arithmetic standing for Python
floats/ints), table cells as the inductive `Val` (a pandas cell: number,
string, boolean, or NaN), and a DataFrame as an ordered list of named
columns `List (String × List Val)` — every operation performed by the
sources is column-wise, so this is a faithful view.
-/

namespace NTD

/-- A pandas cell value: a number, a string, a boolean, or a missing
value (NaN). -/
inductive Val where
  | num (q : Rat)
  | str (s : String)
  | bool (b : Bool)
  | missing
deriving DecidableEq, Repr

/-- Digit-string to natural number; `none` unless the list is a nonempty
run of decimal digits. -/
def parseDigits (cs : List Char) : Option Nat :=
  if cs ≠ [] ∧ cs.all Char.isDigit then
    some (cs.foldl (fun n c => 10 * n + (c.toNat - 48)) 0)
  else none

/-- Unsigned decimal numeral, with an optional single fractional part. -/
def parseUnsigned (cs : List Char) : Option Rat :=
  let ip := cs.takeWhile (fun c => c ≠ '.')
  match cs.dropWhile (fun c => c ≠ '.') with
  | [] => (parseDigits ip).map (fun n => (n : Rat))
  | _ :: frac =>
    match parseDigits ip, parseDigits frac with
    | some n, some f => some ((n : Rat) + (f : Rat) / (10 : Rat) ^ frac.length)
    | _, _ => none

/-- Model of numeric parsing as performed by `pd.to_numeric`: optional
sign, then an unsigned decimal numeral; `none` when the string is not
numeric. -/
def parseNum (s : String) : Option Rat :=
  match s.data with
  | [] => none
  | '-' :: cs => (parseUnsigned cs).map Neg.neg
  | '+' :: cs => parseUnsigned cs
  | cs => parseUnsigned cs

/-- Function `categorize_port` from `src/pcap_converter.py` (lines 158–166):
applied there to integer scapy port fields. -/
def categorize_port (port : Int) : String :=
  if port = 0 then "unknown"
  else if port < 1024 then "well_known"
  else if port < 49152 then "registered"
  else "dynamic"

/-- Function `categorize_port` from `reorganize_csv.py` (lines 247–256): its
argument is a pandas cell that is either NaN (`pd.isna`) or a number. -/
def categorize_port_flow (port : Option Rat) : String :=
  match port with
  | none => "unknown"
  | some p =>
    if p = 0 then "unknown"
    else if p < 1024 then "well_known"
    else if p < 49152 then "registered"
    else "dynamic"

/-- A decoded packet as exposed by the capture-decoding collaborator
(scapy): layer-presence flags and the header fields read by
`convert_pcap_to_csv` (lines 38–124). -/
structure RawPacket where
  hasIP : Bool
  time : Rat
  ipSrc : String
  ipDst : String
  ipProto : Nat
  ipTTL : Nat
  ipLen : Nat
  pktLen : Nat
  hasTCP : Bool
  tcpSport : Int
  tcpDport : Int
  tcpFlags : Nat
  tcpWindow : Nat
  tcpSeq : Nat
  tcpAck : Nat
  hasUDP : Bool
  udpSport : Int
  udpDport : Int
  hasICMP : Bool
deriving DecidableEq

/-- The value stored in the record's `protocol` field: either one of the
string labels assigned in the TCP/UDP/ICMP branches, or the raw numeric
IP protocol number assigned with the basic packet info (line 47). -/
inductive ProtoVal where
  | label (s : String)
  | raw (n : Nat)
deriving DecidableEq

/-- The per-packet dict built inside the extraction loop of
`convert_pcap_to_csv`. -/
structure PacketRecord where
  timestamp : Rat
  src_ip : String
  dst_ip : String
  protocol : ProtoVal
  packet_size : Nat
  ttl : Nat
  src_port : Int
  dst_port : Int
  tcp_flags : Nat
  has_syn : Nat
  has_ack : Nat
  has_fin : Nat
  has_rst : Nat
  has_psh : Nat
  window_size : Nat
  seq_num : Nat
  ack_num : Nat
  payload_size : Int
deriving DecidableEq

/-- One iteration of the extraction loop (lines 38–124): packets without
an IP layer are skipped (`none`); otherwise the record dict is built,
with the branch order TCP, elif UDP, elif ICMP, else as in the source.
The else branch leaves `protocol` at the raw `ip_layer.proto` set with
the basic packet info. -/
def extractRecord (p : RawPacket) : Option PacketRecord :=
  if p.hasIP then
    some
      { timestamp := p.time
        src_ip := p.ipSrc
        dst_ip := p.ipDst
        protocol :=
          if p.hasTCP then ProtoVal.label "TCP"
          else if p.hasUDP then ProtoVal.label "UDP"
          else if p.hasICMP then ProtoVal.label "ICMP"
          else ProtoVal.raw p.ipProto
        packet_size := p.pktLen
        ttl := p.ipTTL
        src_port := if p.hasTCP then p.tcpSport else if p.hasUDP then p.udpSport else 0
        dst_port := if p.hasTCP then p.tcpDport else if p.hasUDP then p.udpDport else 0
        tcp_flags := if p.hasTCP then p.tcpFlags else 0
        has_syn := if p.hasTCP ∧ p.tcpFlags &&& 0x02 ≠ 0 then 1 else 0
        has_ack := if p.hasTCP ∧ p.tcpFlags &&& 0x10 ≠ 0 then 1 else 0
        has_fin := if p.hasTCP ∧ p.tcpFlags &&& 0x01 ≠ 0 then 1 else 0
        has_rst := if p.hasTCP ∧ p.tcpFlags &&& 0x04 ≠ 0 then 1 else 0
        has_psh := if p.hasTCP ∧ p.tcpFlags &&& 0x08 ≠ 0 then 1 else 0
        window_size := if p.hasTCP then p.tcpWindow else 0
        seq_num := if p.hasTCP then p.tcpSeq else 0
        ack_num := if p.hasTCP then p.tcpAck else 0
        payload_size := (p.pktLen : Int) - (p.ipLen : Int) }
  else none

/-- The whole extraction loop over the capture. -/
def extractRecords (ps : List RawPacket) : List PacketRecord :=
  ps.filterMap extractRecord

/-- The `connection_id` key (lines 135–136): "src_ip:src_port-dst_ip:dst_port". -/
def connKey (r : PacketRecord) : String :=
  r.src_ip ++ ":" ++ toString r.src_port ++ "-" ++ r.dst_ip ++ ":" ++ toString r.dst_port

/-- The rows sharing one connection key (one `groupby` group). -/
def connGroup (rs : List PacketRecord) (k : String) : List PacketRecord :=
  rs.filter (fun r => connKey r = k)

/-- Minimum of a timestamp column (`agg min` over a nonempty group). -/
def listMin : List Rat → Rat
  | [] => 0
  | t :: ts => ts.foldl min t

/-- Maximum of a timestamp column (`agg max` over a nonempty group). -/
def listMax : List Rat → Rat
  | [] => 0
  | t :: ts => ts.foldl max t

/-- One row of `conn_stats` (lines 139–150): the per-connection
aggregates plus the derived duration and ε-guarded rates. -/
structure ConnStats where
  start_time : Rat
  end_time : Rat
  packet_count : Nat
  total_bytes : Rat
  avg_packet_size : Rat
  total_payload : Rat
  avg_payload : Rat
  duration : Rat
  packets_per_second : Rat
  bytes_per_second : Rat
deriving DecidableEq

/-- The `conn_stats` row for key `k` computed from the grouped table. -/
def connStatsFor (rs : List PacketRecord) (k : String) : ConnStats :=
  let g := connGroup rs k
  let ts := g.map (fun r => r.timestamp)
  let tmin := listMin ts
  let tmax := listMax ts
  let cnt := g.length
  let tb := (g.map (fun r => (r.packet_size : Rat))).sum
  let tp := (g.map (fun r => (r.payload_size : Rat))).sum
  let dur := tmax - tmin
  { start_time := tmin
    end_time := tmax
    packet_count := cnt
    total_bytes := tb
    avg_packet_size := tb / (cnt : Rat)
    total_payload := tp
    avg_payload := tp / (cnt : Rat)
    duration := dur
    packets_per_second := (cnt : Rat) / (dur + 1 / 1000)
    bytes_per_second := tb / (dur + 1 / 1000) }

/-- The `conn_stats` table: one row per distinct connection key. -/
def statsTable (rs : List PacketRecord) : List (String × ConnStats) :=
  ((rs.map connKey).dedup).map (fun k => (k, connStatsFor rs k))

/-- A row of the merged table (lines 153–155): the packet record plus
the connection columns brought in by the left merge. -/
structure AugRecord where
  base : PacketRecord
  connection_id : String
  duration : Rat
  packet_count : Nat
  packets_per_second : Rat
  bytes_per_second : Rat
deriving DecidableEq

/-- The merge `df.merge(conn_stats[...], on='connection_id', how='left')`: output
rows follow the left table's order; each left row is paired with every
stats row carrying its key. -/
def mergeLeft (rs : List PacketRecord) (st : List (String × ConnStats)) : List AugRecord :=
  rs.flatMap (fun r =>
    (st.filter (fun p => p.1 = connKey r)).map (fun p =>
      { base := r
        connection_id := connKey r
        duration := p.2.duration
        packet_count := p.2.packet_count
        packets_per_second := p.2.packets_per_second
        bytes_per_second := p.2.bytes_per_second }))

/-- The connection-aggregation phase (lines 133–155): guarded by
`if len(df) > 0`, so the empty table is passed through untouched. -/
def aggregate (rs : List PacketRecord) : List AugRecord :=
  if rs.isEmpty then [] else mergeLeft rs (statsTable rs)

/-- The columns of `pd.DataFrame(data)`: every record dict carries the
same 18 keys, and an empty record list yields a column-less frame. -/
def packetCols : List String :=
  ["timestamp", "src_ip", "dst_ip", "protocol", "packet_size", "ttl",
   "src_port", "dst_port", "tcp_flags", "has_syn", "has_ack", "has_fin",
   "has_rst", "has_psh", "window_size", "seq_num", "ack_num", "payload_size"]

/-- The conversion tail after extraction (lines 126–168): build the
frame, aggregate when nonempty, then unconditionally evaluate
`df['dst_port'].apply(categorize_port)` — which raises `KeyError` when
the column is absent, i.e. exactly when the frame is empty. -/
def convertWithPortCategory (data : List PacketRecord) :
    Except String (List (AugRecord × String)) :=
  let merged := aggregate data
  let cols :=
    if data.isEmpty then ([] : List String)
    else packetCols ++ ["connection_id", "duration", "packet_count",
                        "packets_per_second", "bytes_per_second"]
  if "dst_port" ∈ cols then
    Except.ok (merged.map (fun r => (r, categorize_port r.base.dst_port)))
  else Except.error "KeyError: dst_port"

/-- The result of broadcasting the stats of `rs` onto a record `r`. -/
def broadcastRow (rs : List PacketRecord) (r : PacketRecord) : AugRecord :=
  { base := r
    connection_id := connKey r
    duration := (connStatsFor rs (connKey r)).duration
    packet_count := (connStatsFor rs (connKey r)).packet_count
    packets_per_second := (connStatsFor rs (connKey r)).packets_per_second
    bytes_per_second := (connStatsFor rs (connKey r)).bytes_per_second }

/-- Two sample packet records on the same connection, one second apart. -/
def samplePacketA : PacketRecord :=
  { timestamp := 1000, src_ip := "10.0.0.1", dst_ip := "10.0.0.2"
    protocol := ProtoVal.label "TCP", packet_size := 60, ttl := 64
    src_port := 5000, dst_port := 80, tcp_flags := 2
    has_syn := 1, has_ack := 0, has_fin := 0, has_rst := 0, has_psh := 0
    window_size := 100, seq_num := 1, ack_num := 0, payload_size := 20 }

def samplePacketB : PacketRecord :=
  { samplePacketA with timestamp := 1001, tcp_flags := 16, has_syn := 0, has_ack := 1 }

/-- A decoded packet with an IP layer whose protocol is GRE (47): no
TCP, UDP, or ICMP layer is present. -/
def gre_packet : RawPacket :=
  { hasIP := true, time := 1000, ipSrc := "10.0.0.1", ipDst := "10.0.0.2"
    ipProto := 47, ipTTL := 64, ipLen := 24, pktLen := 38
    hasTCP := false, tcpSport := 0, tcpDport := 0, tcpFlags := 0
    tcpWindow := 0, tcpSeq := 0, tcpAck := 0
    hasUDP := false, udpSport := 0, udpDport := 0, hasICMP := false }

/-- One entry of `result['predictions']`. -/
structure Pred where
  record_id : Nat
  prediction : String
  confidence : Rat
  is_threat : Bool
deriving DecidableEq

/-- One entry of `result['llm_analysis']`. -/
structure AnalysisEntry where
  record_id : Nat
  analysis : String
deriving DecidableEq

/-- The ClassificationResult consumed by `_display_results`. -/
structure ClassificationResult where
  total_records : Nat
  threats_detected : Nat
  average_confidence : Rat
  predictions : List Pred
  llm_analysis : Option (List AnalysisEntry)
deriving DecidableEq

/-- Insertion step of a stable descending sort on a numeric key: the
new element (earlier in the original order) passes over strictly
greater keys and stops before the first key less than or equal to its
own. -/
def insertDescBy {α : Type} (key : α → Rat) (x : α) : List α → List α
  | [] => [x]
  | y :: ys => if key x < key y then y :: insertDescBy key x ys else x :: y :: ys

/-- Stable sort, descending on `key`: the semantics of Python's stable
`list.sort(key=..., reverse=True)`. -/
def sortDescBy {α : Type} (key : α → Rat) : List α → List α
  | [] => []
  | x :: xs => insertDescBy key x (sortDescBy key xs)

/-- The list `threats_only = [p for p in predictions if p['is_threat']]`, sorted
by confidence descending, truncated to ten (lines 316–324). -/
def topThreats (preds : List Pred) : List Pred :=
  (sortDescBy (fun p => p.confidence) (preds.filter (fun p => p.is_threat))).take 10

/-- The threat histogram built by the dict loop (lines 305–309):
counts keyed by prediction label, in first-encountered order. -/
def countsFold (preds : List Pred) : List (String × Nat) :=
  preds.foldl (fun acc p =>
    if acc.any (fun q => q.1 = p.prediction) then
      acc.map (fun q => if q.1 = p.prediction then (q.1, q.2 + 1) else q)
    else acc ++ [(p.prediction, 1)]) []

/-- One rendered llm-analysis block (lines 334–341). -/
def formatAnalysisEntry (e : AnalysisEntry) (p : Pred) : String :=
  "Record #" ++ toString e.record_id ++ " - " ++ p.prediction ++ "\n" ++ e.analysis

/-- The llm-analysis loop (lines 333–341): each entry is resolved by the
direct index `result['predictions'][analysis['record_id']]`; an
out-of-range index raises, and nothing inside `_display_results`
catches it. -/
def renderAnalyses (preds : List Pred) : List AnalysisEntry → Except String (List String)
  | [] => Except.ok []
  | e :: es =>
    match preds[e.record_id]? with
    | none => Except.error ("IndexError: record_id " ++ toString e.record_id)
    | some p =>
      (renderAnalyses preds es).map (fun rest => formatAnalysisEntry e p :: rest)

/-- The pure content of `_display_results`. -/
structure RenderedReport where
  total_records : Nat
  threats_detected : Nat
  average_confidence : Rat
  distribution : List (String × Nat)
  top : List Pred
  analyses : List String
deriving DecidableEq

/-- Method `_display_results` (lines 288–341): summary, histogram sorted by
count descending, top-10 threat ranking, and — when `llm_analysis` is
present and nonempty (`result.get('llm_analysis')` is falsy on an empty
list) — the per-entry analysis blocks. -/
def displayResults (r : ClassificationResult) : Except String RenderedReport :=
  let dist := sortDescBy (fun q => (q.2 : Rat)) (countsFold r.predictions)
  let top := topThreats r.predictions
  let base : RenderedReport :=
    { total_records := r.total_records
      threats_detected := r.threats_detected
      average_confidence := r.average_confidence
      distribution := dist
      top := top
      analyses := [] }
  match r.llm_analysis with
  | none => Except.ok base
  | some l =>
    if l = [] then Except.ok base
    else (renderAnalyses r.predictions l).map (fun a => { base with analyses := a })

/-- The ranking order claimed for the top-threats list: strictly larger
confidence first, and among equal confidences the smaller original
record id first. -/
def rankOrder (a b : Pred) : Prop :=
  b.confidence < a.confidence
  ∨ (a.confidence = b.confidence ∧ a.record_id < b.record_id)

/-- The ranking example fixed by the spec: confidences
[0.9, 0.95, 0.95, 0.3], is_threat [true, true, true, false]. -/
def examplePreds : List Pred :=
  [{ record_id := 0, prediction := "ddos",
     confidence := ⟨9, 10, by decide, by decide⟩, is_threat := true },
   { record_id := 1, prediction := "scan",
     confidence := ⟨19, 20, by decide, by decide⟩, is_threat := true },
   { record_id := 2, prediction := "ddos",
     confidence := ⟨19, 20, by decide, by decide⟩, is_threat := true },
   { record_id := 3, prediction := "normal",
     confidence := ⟨3, 10, by decide, by decide⟩, is_threat := false }]

/-- A result whose only llm-analysis entry points past the single
prediction. -/
def badResult : ClassificationResult :=
  { total_records := 1
    threats_detected := 0
    average_confidence := 1 / 2
    predictions :=
      [{ record_id := 0, prediction := "normal", confidence := 1 / 2, is_threat := false }]
    llm_analysis := some [{ record_id := 5, analysis := "spurious" }] }

/-- A DataFrame: ordered named columns of cells. -/
abbrev DF := List (String × List Val)

/-- Membership `c in df.columns`. -/
def hasCol (df : DF) (c : String) : Bool :=
  df.any (fun p => p.1 = c)

/-- Column read `df[c]` (first column with that name; `[]` when absent). -/
def getColD (df : DF) (c : String) : List Val :=
  ((df.find? (fun p => p.1 = c)).map Prod.snd).getD []

/-- Elementwise update of every column named `c`; a no-op when the
column is absent — the `if col in df.columns` guard pattern. -/
def mapCol (df : DF) (c : String) (f : Val → Val) : DF :=
  df.map (fun p => if p.1 = c then (p.1, p.2.map f) else p)

/-- Column write `df[c] = v`: replaces the column in place when present, otherwise
appends it at the end. -/
def setCol (df : DF) (c : String) (v : List Val) : DF :=
  if hasCol df c then df.map (fun p => if p.1 = c then (c, v) else p)
  else df ++ [(c, v)]

/-- The whitespace class stripped by `.str.strip()`. -/
def isSpace (c : Char) : Bool :=
  c = ' ' ∨ c = '\t' ∨ c = '\n' ∨ c = '\r'

/-- Strip leading and trailing whitespace from a character list. -/
def stripChars (l : List Char) : List Char :=
  ((l.dropWhile isSpace).reverse.dropWhile isSpace).reverse

/-- Python `str.strip()` on a column name. -/
def stripName (s : String) : String :=
  String.mk (stripChars s.data)

/-- The trim `df.columns = df.columns.str.strip()`. -/
def trimCols (df : DF) : DF :=
  df.map (fun p => (stripName p.1, p.2))

/-- Dict `column_mapping` (reorganize_csv.py lines 39–63). -/
def renamePairs : List (String × String) :=
  [("ts", "timestamp"), ("uid", "connection_id"),
   ("id.orig_h", "src_ip"), ("id.orig_p", "src_port"),
   ("id.resp_h", "dst_ip"), ("id.resp_p", "dst_port"),
   ("proto", "protocol"), ("service", "service"),
   ("duration", "duration"), ("orig_bytes", "bytes_sent"),
   ("resp_bytes", "bytes_received"), ("conn_state", "connection_state"),
   ("local_orig", "local_origin"), ("local_resp", "local_response"),
   ("missed_bytes", "missed_bytes"), ("history", "history"),
   ("orig_pkts", "packets_sent"), ("orig_ip_bytes", "ip_bytes_sent"),
   ("resp_pkts", "packets_received"), ("resp_ip_bytes", "ip_bytes_received"),
   ("tunnel_parents", "tunnel_parents"), ("label", "label"),
   ("detailed-label", "detailed_label")]

/-- The rename applied to a single column name: mapped names change,
unmapped names pass through. -/
def applyRename (c : String) : String :=
  ((renamePairs.find? (fun m => m.1 = c)).map Prod.snd).getD c

/-- The rename `df.rename(columns={k: v for k, v in column_mapping.items() if k in
df.columns})` — restricting the dict to present keys does not change the
effect on present columns. -/
def renameCols (df : DF) : DF :=
  df.map (fun p => (applyRename p.1, p.2))

/-- List `numeric_cols` (lines 77–79). -/
def numeric_cols : List String :=
  ["src_port", "dst_port", "duration", "bytes_sent", "bytes_received",
   "missed_bytes", "packets_sent", "ip_bytes_sent", "packets_received",
   "ip_bytes_received"]

/-- Coercion `pd.to_numeric(df[col], errors='coerce').fillna(0)` on one cell:
numbers stay, parseable strings become their number, everything that
fails coercion (or is already missing) becomes 0; booleans coerce to
1/0. -/
def coerceNum (v : Val) : Val :=
  match v with
  | Val.num q => Val.num q
  | Val.str s =>
    match parseNum s with
    | some q => Val.num q
    | none => Val.num 0
  | Val.bool b => Val.num (if b then 1 else 0)
  | Val.missing => Val.num 0

/-- The numeric-coercion loop (lines 81–83). -/
def coerceStep (df : DF) : DF :=
  numeric_cols.foldl (fun d c => mapCol d c coerceNum) df

/-- Fill `fillna(d)` on one cell. -/
def fillVal (d : Val) (v : Val) : Val :=
  if v = Val.missing then d else v

/-- List `categorical_cols` (line 86). -/
def categorical_cols : List String :=
  ["protocol", "service", "connection_state", "history"]

/-- The categorical fill loop (lines 88–90). -/
def catStep (df : DF) : DF :=
  categorical_cols.foldl (fun d c => mapCol d c (fillVal (Val.str "unknown"))) df

/-- List `boolean_cols` (line 93). -/
def boolean_cols : List String :=
  ["local_origin", "local_response"]

/-- The boolean fill loop (lines 95–97). -/
def boolStep (df : DF) : DF :=
  boolean_cols.foldl (fun d c => mapCol d c (fillVal (Val.bool false))) df

/-- The label fills (lines 100–104). -/
def labelStep (df : DF) : DF :=
  mapCol (mapCol df "label" (fillVal (Val.str "normal")))
    "detailed_label" (fillVal (Val.str "Benign"))

/-- Elementwise `+` of two pandas columns: numbers add; on an object
column Python strings concatenate; any other mix (including NaN)
propagates a missing value. -/
def valAdd : Val → Val → Val
  | Val.num a, Val.num b => Val.num (a + b)
  | Val.str a, Val.str b => Val.str (a ++ b)
  | _, _ => Val.missing

/-- Derivation `df['total_bytes'] = df['bytes_sent'] + df['bytes_received']`
(lines 109–111). -/
def totalBytesStep (df : DF) : DF :=
  if hasCol df "bytes_sent" && hasCol df "bytes_received" then
    setCol df "total_bytes"
      (List.zipWith valAdd (getColD df "bytes_sent") (getColD df "bytes_received"))
  else df

/-- Derivation `df['total_packets'] = df['packets_sent'] + df['packets_received']`
(lines 113–115). -/
def totalPacketsStep (df : DF) : DF :=
  if hasCol df "packets_sent" && hasCol df "packets_received" then
    setCol df "total_packets"
      (List.zipWith valAdd (getColD df "packets_sent") (getColD df "packets_received"))
  else df

/-- Test `total_packets > 0` on one cell (NaN compares false; the non-numeric
cases cannot be reached by the pipeline, where both operands were
derived from coerced columns). -/
def valGtZero : Val → Bool
  | Val.num q => 0 < q
  | _ => false

/-- Elementwise division of two cells. -/
def valDiv : Val → Val → Val
  | Val.num a, Val.num b => Val.num (a / b)
  | _, _ => Val.missing

/-- One cell of the `np.where(total_packets > 0, total_bytes /
total_packets, 0)` expression (lines 118–122). -/
def bppCell (tb tp : Val) : Val :=
  if valGtZero tp then valDiv tb tp else Val.num 0

/-- The bytes-per-packet step. -/
def bppStep (df : DF) : DF :=
  if hasCol df "total_bytes" && hasCol df "total_packets" then
    setCol df "bytes_per_packet"
      (List.zipWith bppCell (getColD df "total_bytes") (getColD df "total_packets"))
  else df

/-- One cell of `pd.cut(duration, bins=[-inf, 0.1, 1, 10, inf],
labels=[...])`; non-numbers (NaN) map to a missing category. -/
def durCatCell : Val → Val
  | Val.num q =>
    Val.str (if q ≤ 1 / 10 then "very_short"
             else if q ≤ 1 then "short"
             else if q ≤ 10 then "medium"
             else "long")
  | _ => Val.missing

/-- The duration-category step (lines 125–130). -/
def durCatStep (df : DF) : DF :=
  if hasCol df "duration" then
    setCol df "duration_category" ((getColD df "duration").map durCatCell)
  else df

/-- One cell of `df['dst_port'].apply(categorize_port)`: `pd.isna` sends
NaN to "unknown", numbers are bucketed, Python booleans compare as 1/0;
a string cell would raise in Python and is modelled as a missing result
(unreachable: dst_port is coerced numeric before this step). -/
def portCatCell : Val → Val
  | Val.missing => Val.str (categorize_port_flow none)
  | Val.num q => Val.str (categorize_port_flow (some q))
  | Val.bool b => Val.str (categorize_port_flow (some (if b then 1 else 0)))
  | Val.str _ => Val.missing

/-- The port-category step (lines 133–134). -/
def portCatStep (df : DF) : DF :=
  if hasCol df "dst_port" then
    setCol df "port_category" ((getColD df "dst_port").map portCatCell)
  else df

/-- One cell of `df['history'].str.contains(c, na=False).astype(int)`:
substring test on strings; the `.str` accessor yields NaN on
non-strings, which `na=False` turns into False, hence 0. -/
def hasFlagCell (c : Char) : Val → Val
  | Val.str s => Val.num (if s.contains c then 1 else 0)
  | _ => Val.num 0

/-- The TCP-flag extraction from `history` (lines 137–141). -/
def flagStep (df : DF) : DF :=
  if hasCol df "history" then
    let h := getColD df "history"
    setCol (setCol (setCol (setCol df
      "has_syn" (h.map (hasFlagCell 'S')))
      "has_ack" (h.map (hasFlagCell 'A')))
      "has_fin" (h.map (hasFlagCell 'F')))
      "has_rst" (h.map (hasFlagCell 'R'))
  else df

/-- Function `rearrange_threat_data` (lines 36–141): the full normalization
transformation on the loaded table — trim, rename, coerce, fill,
derive. The statistics block (lines 144–189) only prints and the tail
only projects/saves; neither changes the full normalized table. -/
def rearrange_threat_data (df : DF) : DF :=
  flagStep (portCatStep (durCatStep (bppStep (totalPacketsStep
    (totalBytesStep (labelStep (boolStep (catStep (coerceStep
      (renameCols (trimCols df)))))))))))

/-- The fill `df = df.fillna(0)` before `df.to_dict('records')`: one global fill
of the number 0 into every missing cell of every column, whatever the
column's class. -/
def load_data_fill (df : DF) : DF :=
  df.map (fun p => (p.1, p.2.map (fillVal (Val.num 0))))

/-- A column name left unchanged by both trim and rename. -/
def CanonName (c : String) : Prop :=
  stripName c = c ∧ applyRename c = c

instance (c : String) : Decidable (CanonName c) :=
  inferInstanceAs (Decidable (stripName c = c ∧ applyRename c = c))

/-- The nine column names created by the derived-feature steps. -/
def derivedNames : List String :=
  ["total_bytes", "total_packets", "bytes_per_packet", "duration_category",
   "port_category", "has_syn", "has_ack", "has_fin", "has_rst"]

/-- Every column name of the table is canonical. -/
def ColsFixed (t : DF) : Prop :=
  ∀ p ∈ t, CanonName p.1

/-- Every cell of every column named `c` satisfies `P`. -/
def ColCells (t : DF) (c : String) (P : Val → Prop) : Prop :=
  ∀ p ∈ t, p.1 = c → ∀ v ∈ p.2, P v

/-- Every column named `c` holds exactly the cell list `w`. -/
def ColVals (t : DF) (c : String) (w : List Val) : Prop :=
  ∀ p ∈ t, p.1 = c → p.2 = w

/-- Cell is a number. -/
def Val.isNum : Val → Bool
  | Val.num _ => true
  | _ => false

/-- The fill phase of the normalizer: everything up to and including the
label fills. -/
def fillPhase (df : DF) : DF :=
  labelStep (boolStep (catStep (coerceStep (renameCols (trimCols df)))))

/-- Whenever both byte columns are present, `total_bytes` is present and
holds exactly their elementwise sum. -/
def TBInv (t : DF) : Prop :=
  (hasCol t "bytes_sent" && hasCol t "bytes_received") = true →
    hasCol t "total_bytes" = true
    ∧ ColVals t "total_bytes"
        (List.zipWith valAdd (getColD t "bytes_sent") (getColD t "bytes_received"))

def TPInv (t : DF) : Prop :=
  (hasCol t "packets_sent" && hasCol t "packets_received") = true →
    hasCol t "total_packets" = true
    ∧ ColVals t "total_packets"
        (List.zipWith valAdd (getColD t "packets_sent")
          (getColD t "packets_received"))

def BPPInv (t : DF) : Prop :=
  (hasCol t "total_bytes" && hasCol t "total_packets") = true →
    hasCol t "bytes_per_packet" = true
    ∧ ColVals t "bytes_per_packet"
        (List.zipWith bppCell (getColD t "total_bytes") (getColD t "total_packets"))

def DurInv (t : DF) : Prop :=
  hasCol t "duration" = true →
    hasCol t "duration_category" = true
    ∧ ColVals t "duration_category" ((getColD t "duration").map durCatCell)

def PortInv (t : DF) : Prop :=
  hasCol t "dst_port" = true →
    hasCol t "port_category" = true
    ∧ ColVals t "port_category" ((getColD t "dst_port").map portCatCell)

def FlagInv (t : DF) : Prop :=
  hasCol t "history" = true →
    (hasCol t "has_syn" = true
      ∧ ColVals t "has_syn" ((getColD t "history").map (hasFlagCell 'S')))
    ∧ (hasCol t "has_ack" = true
      ∧ ColVals t "has_ack" ((getColD t "history").map (hasFlagCell 'A')))
    ∧ (hasCol t "has_fin" = true
      ∧ ColVals t "has_fin" ((getColD t "history").map (hasFlagCell 'F')))
    ∧ (hasCol t "has_rst" = true
      ∧ ColVals t "has_rst" ((getColD t "history").map (hasFlagCell 'R')))

/-! ## Aggregation lemmas -/

/-! ## Lemmas and claim theorems -/

theorem filter_pair_eq_nil {α β : Type} [DecidableEq α] (f : α → β) (k : α)
    (ks : List α) (hk : k ∉ ks) :
    (ks.map (fun a => (a, f a))).filter (fun p => p.1 = k) = [] := by
  induction ks with
  | nil => rfl
  | cons a as ih =>
    have hak : ¬ a = k := fun h => hk (h ▸ List.mem_cons_self a as)
    have has : k ∉ as := fun h => hk (List.mem_cons_of_mem a h)
    simp [List.filter_cons, hak, ih has]

theorem filter_pair_nodup {α β : Type} [DecidableEq α] (f : α → β) (k : α)
    (ks : List α) (hnd : ks.Nodup) (hk : k ∈ ks) :
    (ks.map (fun a => (a, f a))).filter (fun p => p.1 = k) = [(k, f k)] := by
  induction ks with
  | nil => cases hk
  | cons a as ih =>
    rcases List.mem_cons.mp hk with h | h
    · subst h
      have has : k ∉ as := (List.nodup_cons.mp hnd).1
      rw [List.map_cons, List.filter_cons, if_pos (by simp),
        filter_pair_eq_nil f k as has]
    · have hak : ¬ a = k := by
        intro hEq
        exact (List.nodup_cons.mp hnd).1 (by rw [hEq]; exact h)
      rw [List.map_cons, List.filter_cons, if_neg (by simp [hak]),
        ih (List.nodup_cons.mp hnd).2 h]

theorem flatMap_eq_map_of_singleton {α β : Type} (f : α → List β) (g : α → β)
    (l : List α) (h : ∀ a ∈ l, f a = [g a]) : l.flatMap f = l.map g := by
  induction l with
  | nil => rfl
  | cons a as ih =>
    have h1 := h a (List.mem_cons_self a as)
    have h2 := ih (fun b hb => h b (List.mem_cons_of_mem a hb))
    simp [List.flatMap_cons, h1, h2]

theorem foldl_max_mono {a b : Rat} (l : List Rat) (h : a ≤ b) :
    l.foldl max a ≤ l.foldl max b := by
  induction l generalizing a b with
  | nil => exact h
  | cons u us ih => exact ih (max_le_max h (le_refl u))

theorem listMin_le_listMax (l : List Rat) : listMin l ≤ listMax l := by
  cases l with
  | nil => exact le_refl 0
  | cons t ts =>
    show ts.foldl min t ≤ ts.foldl max t
    induction ts generalizing t with
    | nil => exact le_refl t
    | cons u us ih =>
      calc us.foldl min (min t u) ≤ us.foldl max (min t u) := ih (min t u)
        _ ≤ us.foldl max (max t u) :=
          foldl_max_mono us (le_trans (min_le_left t u) (le_max_left t u))

theorem statsTable_filter (rs : List PacketRecord) (r : PacketRecord) (hr : r ∈ rs) :
    (statsTable rs).filter (fun p => p.1 = connKey r)
      = [(connKey r, connStatsFor rs (connKey r))] := by
  unfold statsTable
  exact filter_pair_nodup (connStatsFor rs) (connKey r) ((rs.map connKey).dedup)
    (List.nodup_dedup _)
    (List.mem_dedup.mpr (List.mem_map_of_mem connKey hr))

theorem mergeLeft_statsTable (rs : List PacketRecord) :
    mergeLeft rs (statsTable rs) = rs.map (broadcastRow rs) := by
  unfold mergeLeft
  apply flatMap_eq_map_of_singleton
  intro r hr
  rw [statsTable_filter rs r hr]
  rfl

/-- C1: on a nonempty input, the Connection Aggregator's output has the
input's length, keeps every record in input order, and equals the
broadcast-join of the per-connection stats onto each row by its own
connection key. -/
theorem C1_aggregator_broadcast (rs : List PacketRecord) (h : rs ≠ []) :
    (aggregate rs).length = rs.length
    ∧ (aggregate rs).map AugRecord.base = rs
    ∧ aggregate rs = rs.map (broadcastRow rs) := by
  have hne : rs.isEmpty = false := by
    cases rs with
    | nil => exact absurd rfl h
    | cons a as => rfl
  have hagg : aggregate rs = rs.map (broadcastRow rs) := by
    unfold aggregate
    rw [hne]
    simpa using mergeLeft_statsTable rs
  refine ⟨?_, ?_, hagg⟩
  · rw [hagg, List.length_map]
  · rw [hagg, List.map_map]
    exact List.map_id rs

/-- Witness for C1 on a concrete two-packet capture. -/
theorem C1_aggregator_broadcast_witness :
    ([samplePacketA, samplePacketB] : List PacketRecord) ≠ []
    ∧ (aggregate [samplePacketA, samplePacketB]).map AugRecord.base
        = [samplePacketA, samplePacketB]
    ∧ (aggregate [samplePacketA, samplePacketB]).length = 2 :=
  ⟨by simp,
   (C1_aggregator_broadcast [samplePacketA, samplePacketB] (by simp)).2.1,
   (C1_aggregator_broadcast [samplePacketA, samplePacketB] (by simp)).1⟩

/-- C4: the `len(df) > 0` guard does skip aggregation on an empty
capture, but the conversion still fails: `df['dst_port']` is evaluated
unconditionally for the port-category column, and the empty frame has no
columns, so the code raises `KeyError` instead of producing an empty
output table. -/
theorem C4_empty_capture_keyerror :
    aggregate ([] : List PacketRecord) = []
    ∧ convertWithPortCategory ([] : List PacketRecord)
        = Except.error "KeyError: dst_port" :=
  ⟨rfl, rfl⟩

/-- C9: rate denominators are always `duration + 1/1000 > 0` (duration
is nonnegative, being max minus min of the group's timestamps), the two
rates are exactly the ε-guarded quotients, and a single-packet
connection gets `packets_per_second = 1/0.001 = 1000`. -/
theorem C9_epsilon_guarded_rates (rs : List PacketRecord) (k : String) :
    0 < (connStatsFor rs k).duration + 1 / 1000
    ∧ (connStatsFor rs k).packets_per_second
        = ((connStatsFor rs k).packet_count : Rat)
            / ((connStatsFor rs k).duration + 1 / 1000)
    ∧ (connStatsFor rs k).bytes_per_second
        = (connStatsFor rs k).total_bytes
            / ((connStatsFor rs k).duration + 1 / 1000)
    ∧ ((connGroup rs k).length = 1
        → (connStatsFor rs k).packets_per_second = 1000) := by
  refine ⟨?_, rfl, rfl, ?_⟩
  · have hmm : listMin ((connGroup rs k).map (fun r => r.timestamp))
        ≤ listMax ((connGroup rs k).map (fun r => r.timestamp)) :=
      listMin_le_listMax _
    show 0 < listMax ((connGroup rs k).map (fun r => r.timestamp))
        - listMin ((connGroup rs k).map (fun r => r.timestamp)) + 1 / 1000
    have : (0 : Rat) < 1 / 1000 := by norm_num
    linarith
  · intro h
    obtain ⟨r, hr⟩ := List.length_eq_one.mp h
    show ((connGroup rs k).length : Rat)
        / (listMax ((connGroup rs k).map (fun r => r.timestamp))
            - listMin ((connGroup rs k).map (fun r => r.timestamp)) + 1 / 1000) = 1000
    rw [hr]
    simp [listMin, listMax]

/-- Witness for C9 on a concrete single-packet capture. -/
theorem C9_epsilon_guarded_rates_witness :
    (connGroup [samplePacketA] (connKey samplePacketA)).length = 1
    ∧ (connStatsFor [samplePacketA] (connKey samplePacketA)).packets_per_second
        = 1000 := by
  have h : (connGroup [samplePacketA] (connKey samplePacketA)).length = 1 := by
    decide
  exact ⟨h,
    (C9_epsilon_guarded_rates [samplePacketA] (connKey samplePacketA)).2.2.2 h⟩

/-- C5 counterexample: for an IP packet carrying neither TCP nor UDP nor
ICMP, the produced record's protocol field stays the raw numeric IP
protocol number (47) — the else branch never assigns the label "OTHER",
so the field is not one of the four string labels. -/
theorem C5_counterexample_raw_protocol :
    (extractRecord gre_packet).map PacketRecord.protocol = some (ProtoVal.raw 47)
    ∧ ∀ s : String, ProtoVal.raw 47 ≠ ProtoVal.label s := by
  constructor
  · rfl
  · intro s hEq
    cases hEq

/-- C5 amended: protocol classification follows the priority
TCP > UDP > ICMP over the layers present, but a packet with none of
those layers keeps the raw numeric IP protocol number — no "OTHER"
label is ever assigned. -/
theorem C5_amended_protocol_priority (p : RawPacket) (h : p.hasIP = true) :
    (p.hasTCP = true
      → (extractRecord p).map PacketRecord.protocol = some (ProtoVal.label "TCP"))
    ∧ (p.hasTCP = false → p.hasUDP = true
      → (extractRecord p).map PacketRecord.protocol = some (ProtoVal.label "UDP"))
    ∧ (p.hasTCP = false → p.hasUDP = false → p.hasICMP = true
      → (extractRecord p).map PacketRecord.protocol = some (ProtoVal.label "ICMP"))
    ∧ (p.hasTCP = false → p.hasUDP = false → p.hasICMP = false
      → (extractRecord p).map PacketRecord.protocol = some (ProtoVal.raw p.ipProto)) := by
  refine ⟨?_, ?_, ?_, ?_⟩ <;> intros <;> simp [extractRecord, h, *]

/-- Witness for C5's amended claim at the GRE packet. -/
theorem C5_amended_protocol_priority_witness :
    gre_packet.hasIP = true
    ∧ (extractRecord gre_packet).map PacketRecord.protocol
        = some (ProtoVal.raw gre_packet.ipProto) :=
  ⟨rfl, (C5_amended_protocol_priority gre_packet rfl).2.2.2 rfl rfl rfl⟩

/-! ## Renderer lemmas and claim theorems -/

theorem mem_insertDescBy {α : Type} (key : α → Rat) (x : α) (l : List α) (z : α)
    (hz : z ∈ insertDescBy key x l) : z = x ∨ z ∈ l := by
  induction l with
  | nil =>
    simp only [insertDescBy, List.mem_singleton] at hz
    exact Or.inl hz
  | cons y ys ih =>
    simp only [insertDescBy] at hz
    by_cases hc : key x < key y
    · rw [if_pos hc] at hz
      rcases List.mem_cons.mp hz with h | h
      · exact Or.inr (h ▸ List.mem_cons_self y ys)
      · rcases ih h with h2 | h2
        · exact Or.inl h2
        · exact Or.inr (List.mem_cons_of_mem y h2)
    · rw [if_neg hc] at hz
      rcases List.mem_cons.mp hz with h | h
      · exact Or.inl h
      · exact Or.inr h

theorem mem_sortDescBy {α : Type} (key : α → Rat) (l : List α) (z : α)
    (hz : z ∈ sortDescBy key l) : z ∈ l := by
  induction l with
  | nil => simp only [sortDescBy] at hz; exact hz
  | cons x xs ih =>
    simp only [sortDescBy] at hz
    rcases mem_insertDescBy key x (sortDescBy key xs) z hz with h | h
    · exact h ▸ List.mem_cons_self x xs
    · exact List.mem_cons_of_mem x (ih h)

theorem conf_le_of_rankOrder {a b : Pred} (h : rankOrder a b) :
    b.confidence ≤ a.confidence := by
  rcases h with h | ⟨h, _⟩
  · exact le_of_lt h
  · exact le_of_eq h.symm

theorem pairwise_insertDescBy (x : Pred) (s : List Pred)
    (hs : List.Pairwise rankOrder s)
    (hid : ∀ y ∈ s, x.record_id < y.record_id) :
    List.Pairwise rankOrder (insertDescBy (fun p => p.confidence) x s) := by
  induction s with
  | nil => simp [insertDescBy]
  | cons y ys ih =>
    simp only [insertDescBy]
    have hy := (List.pairwise_cons.mp hs).1
    have hys := (List.pairwise_cons.mp hs).2
    by_cases hc : x.confidence < y.confidence
    · rw [if_pos hc]
      refine List.pairwise_cons.mpr
        ⟨?_, ih hys (fun z hz => hid z (List.mem_cons_of_mem y hz))⟩
      intro z hz
      rcases mem_insertDescBy _ x ys z hz with h | h
      · exact h ▸ Or.inl hc
      · exact hy z h
    · rw [if_neg hc]
      push_neg at hc
      refine List.pairwise_cons.mpr ⟨?_, hs⟩
      intro z hz
      rcases List.mem_cons.mp hz with h | h
      · subst h
        rcases lt_or_eq_of_le hc with h2 | h2
        · exact Or.inl h2
        · exact Or.inr ⟨h2.symm, hid z (List.mem_cons_self z ys)⟩
      · have hzy : z.confidence ≤ y.confidence := conf_le_of_rankOrder (hy z h)
        rcases lt_or_eq_of_le (le_trans hzy hc) with h2 | h2
        · exact Or.inl h2
        · exact Or.inr ⟨h2.symm, hid z (List.mem_cons_of_mem y h)⟩

theorem pairwise_sortDescBy (l : List Pred)
    (hl : List.Pairwise (fun a b => a.record_id < b.record_id) l) :
    List.Pairwise rankOrder (sortDescBy (fun p => p.confidence) l) := by
  induction l with
  | nil => simp [sortDescBy]
  | cons x xs ih =>
    simp only [sortDescBy]
    have h1 := (List.pairwise_cons.mp hl).1
    have h2 := (List.pairwise_cons.mp hl).2
    exact pairwise_insertDescBy x _ (ih h2)
      (fun y hy => h1 y (mem_sortDescBy _ _ y hy))

/-- C7: the top-threats list keeps only `is_threat` rows, has at most
ten entries, and — for predictions whose record_id is their row index —
is ordered by confidence descending with confidence ties in ascending
record_id order (the stable-sort property). -/
theorem C7_top_threats_ranking (preds : List Pred)
    (hids : ∀ i (h : i < preds.length), (preds.get ⟨i, h⟩).record_id = i) :
    (∀ p ∈ topThreats preds, p.is_threat = true)
    ∧ (topThreats preds).length ≤ 10
    ∧ List.Pairwise rankOrder (topThreats preds) := by
  have hpw : List.Pairwise (fun a b => a.record_id < b.record_id) preds := by
    rw [List.pairwise_iff_get]
    intro i j hij
    rw [hids i i.isLt, hids j j.isLt]
    exact hij
  refine ⟨?_, ?_, ?_⟩
  · intro p hp
    have h1 : p ∈ sortDescBy (fun p => p.confidence)
        (preds.filter (fun p => p.is_threat)) :=
      List.take_subset _ _ hp
    exact (List.mem_filter.mp (mem_sortDescBy _ _ p h1)).2
  · exact List.length_take_le _ _
  · exact (pairwise_sortDescBy _ (hpw.filter _)).sublist (List.take_sublist _ _)

/-- Witness for C7: on the spec's example the ranked ids are [1, 2, 0]
(ids 1 and 2 adjacent and above 0, id 3 excluded). -/
theorem C7_top_threats_ranking_witness :
    (∀ i (h : i < examplePreds.length), (examplePreds.get ⟨i, h⟩).record_id = i)
    ∧ List.Pairwise rankOrder (topThreats examplePreds)
    ∧ (topThreats examplePreds).map Pred.record_id = [1, 2, 0] := by
  have hids : ∀ i (h : i < examplePreds.length),
      (examplePreds.get ⟨i, h⟩).record_id = i := by decide
  exact ⟨hids, (C7_top_threats_ranking examplePreds hids).2.2, by decide⟩

theorem renderAnalyses_error_of_bad (preds : List Pred) (l : List AnalysisEntry)
    (h : ∃ e ∈ l, preds[e.record_id]? = none) :
    ∃ msg, renderAnalyses preds l = Except.error msg := by
  induction l with
  | nil =>
    rcases h with ⟨e, he, _⟩
    cases he
  | cons a as ih =>
    cases h0 : preds[a.record_id]? with
    | none =>
      exact ⟨"IndexError: record_id " ++ toString a.record_id,
        by simp [renderAnalyses, h0]⟩
    | some p =>
      have hbad : ∃ e ∈ as, preds[e.record_id]? = none := by
        rcases h with ⟨e, he, hn⟩
        rcases List.mem_cons.mp he with rfl | hmem
        · rw [h0] at hn
          cases hn
        · exact ⟨e, hmem, hn⟩
      rcases ih hbad with ⟨msg, hmsg⟩
      exact ⟨msg, by simp [renderAnalyses, h0, hmsg, Except.map]⟩

/-- C8: when `llm_analysis` holds an entry whose record_id is outside
the predictions range, the rendering step fails with an error — the
out-of-range lookup is not caught inside `_display_results`. -/
theorem C8_out_of_range_analysis_fatal (r : ClassificationResult)
    (l : List AnalysisEntry) (e : AnalysisEntry)
    (hl : r.llm_analysis = some l) (he : e ∈ l)
    (hrange : r.predictions.length ≤ e.record_id) :
    ∃ msg, displayResults r = Except.error msg := by
  have hnil : l ≠ [] := by
    intro hEq
    subst hEq
    cases he
  have hget : r.predictions[e.record_id]? = none :=
    List.getElem?_eq_none hrange
  rcases renderAnalyses_error_of_bad r.predictions l ⟨e, he, hget⟩ with ⟨msg, hmsg⟩
  exact ⟨msg, by simp [displayResults, hl, hnil, hmsg, Except.map]⟩

/-- Witness for C8 at a concrete misaligned result. -/
theorem C8_out_of_range_analysis_fatal_witness :
    badResult.predictions.length ≤ 5
    ∧ ∃ msg, displayResults badResult = Except.error msg :=
  ⟨by decide,
   C8_out_of_range_analysis_fatal badResult
     [{ record_id := 5, analysis := "spurious" }]
     { record_id := 5, analysis := "spurious" }
     rfl (List.mem_cons_self _ _) (by decide)⟩

/-! ## Normalizer lemmas: column-name canonicalization -/

theorem dropWhile_idem (p : Char → Bool) (l : List Char) :
    (l.dropWhile p).dropWhile p = l.dropWhile p := by
  induction l with
  | nil => rfl
  | cons a as ih =>
    by_cases h : p a = true
    · rw [List.dropWhile_cons, if_pos h]
      exact ih
    · rw [List.dropWhile_cons, if_neg h, List.dropWhile_cons, if_neg h]

theorem length_dropWhile_le (p : Char → Bool) (l : List Char) :
    (l.dropWhile p).length ≤ l.length := by
  induction l with
  | nil => exact le_refl 0
  | cons a as ih =>
    rw [List.dropWhile_cons]
    by_cases h : p a = true
    · rw [if_pos h]
      exact le_trans ih (Nat.le_succ _)
    · rw [if_neg h]

theorem stripChars_idem (l : List Char) :
    stripChars (stripChars l) = stripChars l := by
  have hBfix : (l.dropWhile isSpace).dropWhile isSpace = l.dropWhile isSpace :=
    dropWhile_idem isSpace l
  have hCdrop : (stripChars l).dropWhile isSpace = stripChars l := by
    cases hCe : stripChars l with
    | nil => rfl
    | cons c cs =>
      have hpre : stripChars l <+: l.dropWhile isSpace := by
        apply List.reverse_suffix.mp
        show (stripChars l).reverse <:+ (l.dropWhile isSpace).reverse
        unfold stripChars
        rw [List.reverse_reverse]
        exact List.dropWhile_suffix isSpace
      obtain ⟨tl, htl⟩ := hpre
      rw [hCe] at htl
      have hc : ¬ isSpace c = true := by
        intro hcs
        rw [← htl, List.cons_append, List.dropWhile_cons, if_pos hcs] at hBfix
        have := congrArg List.length hBfix
        rw [List.length_cons, List.length_append] at this
        have hle := length_dropWhile_le isSpace (cs ++ tl)
        rw [this] at hle
        rw [List.length_append] at hle
        omega
      rw [List.dropWhile_cons, if_neg hc]
  have hCrev : (stripChars l).reverse.dropWhile isSpace = (stripChars l).reverse := by
    show ((((l.dropWhile isSpace).reverse.dropWhile isSpace).reverse).reverse).dropWhile
        isSpace = _
    rw [List.reverse_reverse]
    rw [dropWhile_idem]
    unfold stripChars
    rw [List.reverse_reverse]
  show ((((stripChars l).dropWhile isSpace).reverse).dropWhile isSpace).reverse
      = stripChars l
  rw [hCdrop, hCrev, List.reverse_reverse]

theorem stripName_idem (s : String) :
    stripName (stripName s) = stripName s := by
  unfold stripName
  rw [stripChars_idem]

theorem renameTargets_fixed :
    ∀ m ∈ renamePairs, stripName m.2 = m.2 ∧ applyRename m.2 = m.2 := by
  decide

theorem applyRename_idem (c : String) :
    applyRename (applyRename c) = applyRename c := by
  cases h : renamePairs.find? (fun m => m.1 = c) with
  | none =>
    simp only [applyRename, h, Option.map_none', Option.getD_none]
  | some m =>
    have hm : m ∈ renamePairs := List.mem_of_find?_eq_some h
    have ht := (renameTargets_fixed m hm).2
    simp only [applyRename, h, Option.map_some', Option.getD_some]
    simpa only [applyRename] using ht

theorem stripName_applyRename (c : String) :
    stripName (applyRename (stripName c)) = applyRename (stripName c) := by
  cases h : renamePairs.find? (fun m => m.1 = stripName c) with
  | none =>
    simp only [applyRename, h, Option.map_none', Option.getD_none]
    exact stripName_idem c
  | some m =>
    have hm : m ∈ renamePairs := List.mem_of_find?_eq_some h
    simp only [applyRename, h, Option.map_some', Option.getD_some]
    exact (renameTargets_fixed m hm).1

theorem canonName_pipeline (c : String) :
    CanonName (applyRename (stripName c)) :=
  ⟨stripName_applyRename c, applyRename_idem (stripName c)⟩

theorem derivedNames_canon : ∀ c ∈ derivedNames, CanonName c := by
  decide

theorem map_id_of_fix {α : Type} (l : List α) (f : α → α)
    (h : ∀ x ∈ l, f x = x) : l.map f = l := by
  induction l with
  | nil => rfl
  | cons a as ih =>
    rw [List.map_cons, h a (List.mem_cons_self a as),
      ih (fun x hx => h x (List.mem_cons_of_mem a hx))]

theorem colsFixed_trim_rename (df : DF) : ColsFixed (renameCols (trimCols df)) := by
  intro p hp
  unfold renameCols trimCols at hp
  rw [List.map_map] at hp
  obtain ⟨q, hq, hpq⟩ := List.mem_map.mp hp
  rw [← hpq]
  exact canonName_pipeline q.1

theorem colsFixed_mapCol {t : DF} {c : String} {f : Val → Val}
    (h : ColsFixed t) : ColsFixed (mapCol t c f) := by
  intro p hp
  obtain ⟨q, hq, hpq⟩ := List.mem_map.mp hp
  by_cases hqc : q.1 = c
  · rw [if_pos hqc] at hpq
    rw [← hpq]
    exact h q hq
  · rw [if_neg hqc] at hpq
    rw [← hpq]
    exact h q hq

theorem colsFixed_setCol {t : DF} {c : String} {v : List Val}
    (h : ColsFixed t) (hc : CanonName c) : ColsFixed (setCol t c v) := by
  intro p hp
  unfold setCol at hp
  by_cases hhc : hasCol t c = true
  · rw [if_pos hhc] at hp
    obtain ⟨q, hq, hpq⟩ := List.mem_map.mp hp
    by_cases hqc : q.1 = c
    · rw [if_pos hqc] at hpq
      rw [← hpq]
      exact hc
    · rw [if_neg hqc] at hpq
      rw [← hpq]
      exact h q hq
  · rw [if_neg hhc] at hp
    rcases List.mem_append.mp hp with h1 | h1
    · exact h p h1
    · rw [List.mem_singleton.mp h1]
      exact hc

theorem colsFixed_foldl_mapCol (cols : List String) (f : Val → Val) (t : DF)
    (h : ColsFixed t) :
    ColsFixed (cols.foldl (fun d c => mapCol d c f) t) := by
  induction cols generalizing t with
  | nil => exact h
  | cons c cs ih => exact ih _ (colsFixed_mapCol h)

theorem colCells_mapCol {t : DF} {c' c : String} {f : Val → Val} {P : Val → Prop}
    (h : ColCells t c P) (hf : ∀ v, P v → P (f v)) :
    ColCells (mapCol t c' f) c P := by
  intro p hp hpc v hv
  obtain ⟨q, hq, hpq⟩ := List.mem_map.mp hp
  by_cases hqc : q.1 = c'
  · rw [if_pos hqc] at hpq
    rw [← hpq] at hpc hv
    obtain ⟨w, hw, hwv⟩ := List.mem_map.mp hv
    rw [← hwv]
    exact hf w (h q hq hpc w hw)
  · rw [if_neg hqc] at hpq
    rw [← hpq] at hpc hv
    exact h q hq hpc v hv

theorem colCells_mapCol_self {t : DF} {c : String} {f : Val → Val} {P : Val → Prop}
    (hall : ∀ v, P (f v)) : ColCells (mapCol t c f) c P := by
  intro p hp hpc v hv
  obtain ⟨q, hq, hpq⟩ := List.mem_map.mp hp
  by_cases hqc : q.1 = c
  · rw [if_pos hqc] at hpq
    rw [← hpq] at hv
    obtain ⟨w, hw, hwv⟩ := List.mem_map.mp hv
    rw [← hwv]
    exact hall w
  · rw [if_neg hqc] at hpq
    rw [← hpq] at hpc
    exact absurd hpc hqc

theorem not_name_of_hasCol_false {t : DF} {c : String}
    (h : ¬ hasCol t c = true) : ∀ p ∈ t, ¬ p.1 = c := by
  intro p hp
  have := List.any_eq_false.mp (by rwa [Bool.not_eq_true] at h) p hp
  simpa using this

theorem colCells_setCol_other {t : DF} {c' c : String} {v : List Val} {P : Val → Prop}
    (hne : c' ≠ c) (h : ColCells t c P) : ColCells (setCol t c' v) c P := by
  intro p hp hpc x hx
  unfold setCol at hp
  by_cases hhc : hasCol t c' = true
  · rw [if_pos hhc] at hp
    obtain ⟨q, hq, hpq⟩ := List.mem_map.mp hp
    by_cases hqc : q.1 = c'
    · rw [if_pos hqc] at hpq
      rw [← hpq] at hpc
      exact absurd hpc hne
    · rw [if_neg hqc] at hpq
      rw [← hpq] at hpc hx
      exact h q hq hpc x hx
  · rw [if_neg hhc] at hp
    rcases List.mem_append.mp hp with h1 | h1
    · exact h p h1 hpc x hx
    · rw [List.mem_singleton.mp h1] at hpc
      exact absurd hpc hne

theorem colCells_setCol_self {t : DF} {c : String} {v : List Val} {P : Val → Prop}
    (hall : ∀ x ∈ v, P x) : ColCells (setCol t c v) c P := by
  intro p hp hpc x hx
  unfold setCol at hp
  by_cases hhc : hasCol t c = true
  · rw [if_pos hhc] at hp
    obtain ⟨q, hq, hpq⟩ := List.mem_map.mp hp
    by_cases hqc : q.1 = c
    · rw [if_pos hqc] at hpq
      rw [← hpq] at hx
      exact hall x hx
    · rw [if_neg hqc] at hpq
      rw [← hpq] at hpc
      exact absurd hpc hqc
  · rw [if_neg hhc] at hp
    rcases List.mem_append.mp hp with h1 | h1
    · exact absurd hpc (not_name_of_hasCol_false hhc p h1)
    · rw [List.mem_singleton.mp h1] at hx
      exact hall x hx

theorem colCells_foldl_mapCol {cols : List String} {f : Val → Val} {t : DF}
    {c : String} {P : Val → Prop}
    (h : ColCells t c P) (hf : ∀ v, P v → P (f v)) :
    ColCells (cols.foldl (fun d c' => mapCol d c' f) t) c P := by
  induction cols generalizing t with
  | nil => exact h
  | cons c' cs ih => exact ih (colCells_mapCol h hf)

theorem colCells_foldl_mapCol_est {cols : List String} {f : Val → Val} {t : DF}
    {c : String} {P : Val → Prop}
    (hc : c ∈ cols) (hall : ∀ v, P (f v)) :
    ColCells (cols.foldl (fun d c' => mapCol d c' f) t) c P := by
  induction cols generalizing t with
  | nil => cases hc
  | cons c' cs ih =>
    rcases List.mem_cons.mp hc with h | h
    · subst h
      rw [List.foldl_cons]
      exact colCells_foldl_mapCol (colCells_mapCol_self hall) (fun v _ => hall v)
    · rw [List.foldl_cons]
      exact ih h

theorem colVals_setCol_self (t : DF) (c : String) (v : List Val) :
    ColVals (setCol t c v) c v := by
  intro p hp hpc
  unfold setCol at hp
  by_cases hhc : hasCol t c = true
  · rw [if_pos hhc] at hp
    obtain ⟨q, hq, hpq⟩ := List.mem_map.mp hp
    by_cases hqc : q.1 = c
    · rw [if_pos hqc] at hpq
      rw [← hpq]
    · rw [if_neg hqc] at hpq
      rw [← hpq] at hpc
      exact absurd hpc hqc
  · rw [if_neg hhc] at hp
    rcases List.mem_append.mp hp with h1 | h1
    · exact absurd hpc (not_name_of_hasCol_false hhc p h1)
    · rw [List.mem_singleton.mp h1]

theorem colVals_setCol_other {t : DF} {c' c : String} {v w : List Val}
    (hne : c' ≠ c) (h : ColVals t c w) : ColVals (setCol t c' v) c w := by
  intro p hp hpc
  unfold setCol at hp
  by_cases hhc : hasCol t c' = true
  · rw [if_pos hhc] at hp
    obtain ⟨q, hq, hpq⟩ := List.mem_map.mp hp
    by_cases hqc : q.1 = c'
    · rw [if_pos hqc] at hpq
      rw [← hpq] at hpc
      exact absurd hpc hne
    · rw [if_neg hqc] at hpq
      rw [← hpq] at hpc ⊢
      exact h q hq hpc
  · rw [if_neg hhc] at hp
    rcases List.mem_append.mp hp with h1 | h1
    · exact h p h1 hpc
    · rw [List.mem_singleton.mp h1] at hpc
      exact absurd hpc hne

theorem hasCol_mapCol (t : DF) (c' : String) (f : Val → Val) (c : String) :
    hasCol (mapCol t c' f) c = hasCol t c := by
  induction t with
  | nil => rfl
  | cons q qs ih =>
    unfold mapCol at ih ⊢
    rw [List.map_cons]
    by_cases hq : q.1 = c'
    · rw [if_pos hq]
      unfold hasCol
      rw [List.any_cons, List.any_cons]
      unfold hasCol at ih
      rw [ih]
    · rw [if_neg hq]
      unfold hasCol
      rw [List.any_cons, List.any_cons]
      unfold hasCol at ih
      rw [ih]

theorem hasCol_map_setFn (t : DF) (c' c : String) (v : List Val) :
    hasCol (t.map (fun p => if p.1 = c' then (c', v) else p)) c = hasCol t c := by
  induction t with
  | nil => rfl
  | cons q qs ih =>
    rw [List.map_cons]
    unfold hasCol
    rw [List.any_cons, List.any_cons]
    unfold hasCol at ih
    rw [ih]
    by_cases hq : q.1 = c'
    · rw [if_pos hq]
      have h2 : ((c', v).1 = c) = (q.1 = c) := by rw [hq]
      simp only [h2]
    · rw [if_neg hq]

theorem hasCol_setCol (t : DF) (c' : String) (v : List Val) (c : String) :
    hasCol (setCol t c' v) c = (hasCol t c || decide (c' = c)) := by
  unfold setCol
  by_cases hhc : hasCol t c' = true
  · rw [if_pos hhc]
    show hasCol (t.map (fun p => if p.1 = c' then (c', v) else p)) c
        = (hasCol t c || decide (c' = c))
    rw [hasCol_map_setFn]
    by_cases hcc : c' = c
    · have h1 : hasCol t c = true := by
        rw [← hcc]
        exact hhc
      rw [h1, decide_eq_true hcc]
      rfl
    · rw [decide_eq_false hcc, Bool.or_false]
  · rw [if_neg hhc]
    unfold hasCol
    rw [List.any_append]
    have h3 : List.any [(c', v)] (fun p => p.1 = c) = decide (c' = c) := by
      rw [List.any_cons, List.any_nil, Bool.or_false]
    rw [h3]

theorem find?_map_mapFn (t : DF) (c' c : String) (f : Val → Val) (hne : c' ≠ c) :
    (t.map (fun p => if p.1 = c' then (p.1, p.2.map f) else p)).find?
        (fun p => p.1 = c)
      = t.find? (fun p => p.1 = c) := by
  induction t with
  | nil => rfl
  | cons q qs ih =>
    rw [List.map_cons, List.find?_cons, List.find?_cons]
    by_cases hq : q.1 = c'
    · rw [if_pos hq]
      have hqc : ¬ q.1 = c := by
        intro hh
        exact hne (by rw [← hq]; exact hh)
      simp only [decide_eq_false hqc]
      exact ih
    · rw [if_neg hq]
      by_cases hqc : q.1 = c
      · simp only [decide_eq_true hqc]
      · simp only [decide_eq_false hqc]
        exact ih

theorem getColD_mapCol_other {t : DF} {c' c : String} {f : Val → Val}
    (hne : c' ≠ c) : getColD (mapCol t c' f) c = getColD t c := by
  unfold getColD mapCol
  rw [find?_map_mapFn t c' c f hne]

theorem find?_map_setFn (t : DF) (c' c : String) (v : List Val) (hne : c' ≠ c) :
    (t.map (fun p => if p.1 = c' then (c', v) else p)).find? (fun p => p.1 = c)
      = t.find? (fun p => p.1 = c) := by
  induction t with
  | nil => rfl
  | cons q qs ih =>
    rw [List.map_cons, List.find?_cons, List.find?_cons]
    by_cases hq : q.1 = c'
    · rw [if_pos hq]
      have hqc : ¬ q.1 = c := by
        intro hh
        exact hne (by rw [← hq]; exact hh)
      have h1 : (decide ((c', v).1 = c)) = false := decide_eq_false hne
      simp only [h1, decide_eq_false hqc]
      exact ih
    · rw [if_neg hq]
      by_cases hqc : q.1 = c
      · simp only [decide_eq_true hqc]
      · simp only [decide_eq_false hqc]
        exact ih

theorem find?_append_singleton (t : DF) (c' c : String) (v : List Val)
    (hne : c' ≠ c) :
    (t ++ [(c', v)]).find? (fun p => p.1 = c) = t.find? (fun p => p.1 = c) := by
  induction t with
  | nil =>
    rw [List.nil_append, List.find?_cons]
    simp only [decide_eq_false hne]
  | cons q qs ih =>
    rw [List.cons_append, List.find?_cons, List.find?_cons]
    by_cases hqc : q.1 = c
    · simp only [decide_eq_true hqc]
    · simp only [decide_eq_false hqc]
      exact ih

theorem getColD_setCol_other {t : DF} {c' c : String} {v : List Val}
    (hne : c' ≠ c) : getColD (setCol t c' v) c = getColD t c := by
  unfold setCol
  by_cases hhc : hasCol t c' = true
  · rw [if_pos hhc]
    unfold getColD
    rw [find?_map_setFn t c' c v hne]
  · rw [if_neg hhc]
    unfold getColD
    rw [find?_append_singleton t c' c v hne]

/-! Generic lemmas for a derived-feature step of the shape
`if b then setCol t n v else t`. -/

theorem hasCol_ite_setCol (b : Bool) (t : DF) (n : String) (v : List Val)
    (c : String) (hne : n ≠ c) :
    hasCol (if b then setCol t n v else t) c = hasCol t c := by
  cases b with
  | false => rfl
  | true =>
    show hasCol (setCol t n v) c = hasCol t c
    rw [hasCol_setCol, decide_eq_false hne, Bool.or_false]

theorem getColD_ite_setCol (b : Bool) (t : DF) (n : String) (v : List Val)
    (c : String) (hne : n ≠ c) :
    getColD (if b then setCol t n v else t) c = getColD t c := by
  cases b with
  | false => rfl
  | true => exact getColD_setCol_other hne

theorem colCells_ite_setCol {b : Bool} {t : DF} {n : String} {v : List Val}
    {c : String} {P : Val → Prop} (hne : n ≠ c) (h : ColCells t c P) :
    ColCells (if b then setCol t n v else t) c P := by
  cases b with
  | false => exact h
  | true => exact colCells_setCol_other hne h

theorem colVals_ite_setCol {b : Bool} {t : DF} {n : String} {v : List Val}
    {c : String} {w : List Val} (hne : n ≠ c) (h : ColVals t c w) :
    ColVals (if b then setCol t n v else t) c w := by
  cases b with
  | false => exact h
  | true => exact colVals_setCol_other hne h

theorem colsFixed_ite_setCol {b : Bool} {t : DF} {n : String} {v : List Val}
    (h : ColsFixed t) (hn : CanonName n) :
    ColsFixed (if b then setCol t n v else t) := by
  cases b with
  | false => exact h
  | true => exact colsFixed_setCol h hn

theorem coerceNum_isNum (v : Val) : (coerceNum v).isNum = true := by
  cases v with
  | num q => rfl
  | str s =>
    cases hp : parseNum s with
    | none => simp [coerceNum, Val.isNum, hp]
    | some q => simp [coerceNum, Val.isNum, hp]
  | bool b => rfl
  | missing => rfl

theorem fillVal_isNum {d : Val} (v : Val) (h : v.isNum = true) :
    (fillVal d v).isNum = true := by
  cases v with
  | num q => exact h
  | str s => cases h
  | bool b => cases h
  | missing => cases h

theorem fillVal_ne_missing {d : Val} (hd : d ≠ Val.missing) (v : Val) :
    fillVal d v ≠ Val.missing := by
  unfold fillVal
  by_cases hv : v = Val.missing
  · rw [if_pos hv]
    exact hd
  · rw [if_neg hv]
    exact hv

theorem fillVal_of_ne_missing {d : Val} {v : Val} (hv : v ≠ Val.missing) :
    fillVal d v = v := by
  unfold fillVal
  rw [if_neg hv]

theorem coerceNum_of_isNum {v : Val} (h : v.isNum = true) : coerceNum v = v := by
  cases v with
  | num q => rfl
  | str s => cases h
  | bool b => cases h
  | missing => cases h

theorem numeric_ne_derived :
    ∀ c ∈ numeric_cols, ∀ n ∈ derivedNames, n ≠ c := by
  decide

theorem cat_ne_derived :
    ∀ c ∈ categorical_cols, ∀ n ∈ derivedNames, n ≠ c := by
  decide

theorem bool_ne_derived :
    ∀ c ∈ boolean_cols, ∀ n ∈ derivedNames, n ≠ c := by
  decide

theorem label_ne_derived :
    ∀ n ∈ derivedNames, n ≠ "label" ∧ n ≠ "detailed_label" := by
  decide

theorem rearrange_eq (df : DF) :
    rearrange_threat_data df
      = flagStep (portCatStep (durCatStep (bppStep (totalPacketsStep
          (totalBytesStep (fillPhase df)))))) := rfl

theorem hasCol_tbStep (t : DF) (c : String) (hne : "total_bytes" ≠ c) :
    hasCol (totalBytesStep t) c = hasCol t c := by
  unfold totalBytesStep
  exact hasCol_ite_setCol _ _ _ _ _ hne

theorem hasCol_tpStep (t : DF) (c : String) (hne : "total_packets" ≠ c) :
    hasCol (totalPacketsStep t) c = hasCol t c := by
  unfold totalPacketsStep
  exact hasCol_ite_setCol _ _ _ _ _ hne

theorem hasCol_bppStep (t : DF) (c : String) (hne : "bytes_per_packet" ≠ c) :
    hasCol (bppStep t) c = hasCol t c := by
  unfold bppStep
  exact hasCol_ite_setCol _ _ _ _ _ hne

theorem hasCol_durStep (t : DF) (c : String) (hne : "duration_category" ≠ c) :
    hasCol (durCatStep t) c = hasCol t c := by
  unfold durCatStep
  exact hasCol_ite_setCol _ _ _ _ _ hne

theorem hasCol_portStep (t : DF) (c : String) (hne : "port_category" ≠ c) :
    hasCol (portCatStep t) c = hasCol t c := by
  unfold portCatStep
  exact hasCol_ite_setCol _ _ _ _ _ hne

theorem hasCol_flagStep (t : DF) (c : String)
    (h1 : "has_syn" ≠ c) (h2 : "has_ack" ≠ c)
    (h3 : "has_fin" ≠ c) (h4 : "has_rst" ≠ c) :
    hasCol (flagStep t) c = hasCol t c := by
  unfold flagStep
  split
  · show hasCol (setCol (setCol (setCol (setCol t "has_syn" _) "has_ack" _)
        "has_fin" _) "has_rst" _) c = hasCol t c
    rw [hasCol_setCol, decide_eq_false h4, Bool.or_false,
      hasCol_setCol, decide_eq_false h3, Bool.or_false,
      hasCol_setCol, decide_eq_false h2, Bool.or_false,
      hasCol_setCol, decide_eq_false h1, Bool.or_false]
  · rfl

theorem getColD_tbStep (t : DF) (c : String) (hne : "total_bytes" ≠ c) :
    getColD (totalBytesStep t) c = getColD t c := by
  unfold totalBytesStep
  exact getColD_ite_setCol _ _ _ _ _ hne

theorem getColD_tpStep (t : DF) (c : String) (hne : "total_packets" ≠ c) :
    getColD (totalPacketsStep t) c = getColD t c := by
  unfold totalPacketsStep
  exact getColD_ite_setCol _ _ _ _ _ hne

theorem getColD_bppStep (t : DF) (c : String) (hne : "bytes_per_packet" ≠ c) :
    getColD (bppStep t) c = getColD t c := by
  unfold bppStep
  exact getColD_ite_setCol _ _ _ _ _ hne

theorem getColD_durStep (t : DF) (c : String) (hne : "duration_category" ≠ c) :
    getColD (durCatStep t) c = getColD t c := by
  unfold durCatStep
  exact getColD_ite_setCol _ _ _ _ _ hne

theorem getColD_portStep (t : DF) (c : String) (hne : "port_category" ≠ c) :
    getColD (portCatStep t) c = getColD t c := by
  unfold portCatStep
  exact getColD_ite_setCol _ _ _ _ _ hne

theorem getColD_flagStep (t : DF) (c : String)
    (h1 : "has_syn" ≠ c) (h2 : "has_ack" ≠ c)
    (h3 : "has_fin" ≠ c) (h4 : "has_rst" ≠ c) :
    getColD (flagStep t) c = getColD t c := by
  unfold flagStep
  split
  · show getColD (setCol (setCol (setCol (setCol t "has_syn" _) "has_ack" _)
        "has_fin" _) "has_rst" _) c = getColD t c
    rw [getColD_setCol_other h4, getColD_setCol_other h3,
      getColD_setCol_other h2, getColD_setCol_other h1]
  · rfl

theorem colVals_tbStep {t : DF} {c : String} {w : List Val}
    (hne : "total_bytes" ≠ c) (h : ColVals t c w) :
    ColVals (totalBytesStep t) c w := by
  unfold totalBytesStep
  exact colVals_ite_setCol hne h

theorem colVals_tpStep {t : DF} {c : String} {w : List Val}
    (hne : "total_packets" ≠ c) (h : ColVals t c w) :
    ColVals (totalPacketsStep t) c w := by
  unfold totalPacketsStep
  exact colVals_ite_setCol hne h

theorem colVals_bppStep {t : DF} {c : String} {w : List Val}
    (hne : "bytes_per_packet" ≠ c) (h : ColVals t c w) :
    ColVals (bppStep t) c w := by
  unfold bppStep
  exact colVals_ite_setCol hne h

theorem colVals_durStep {t : DF} {c : String} {w : List Val}
    (hne : "duration_category" ≠ c) (h : ColVals t c w) :
    ColVals (durCatStep t) c w := by
  unfold durCatStep
  exact colVals_ite_setCol hne h

theorem colVals_portStep {t : DF} {c : String} {w : List Val}
    (hne : "port_category" ≠ c) (h : ColVals t c w) :
    ColVals (portCatStep t) c w := by
  unfold portCatStep
  exact colVals_ite_setCol hne h

theorem colVals_flagStep {t : DF} {c : String} {w : List Val}
    (h1 : "has_syn" ≠ c) (h2 : "has_ack" ≠ c)
    (h3 : "has_fin" ≠ c) (h4 : "has_rst" ≠ c) (h : ColVals t c w) :
    ColVals (flagStep t) c w := by
  unfold flagStep
  split
  · exact colVals_setCol_other h4 (colVals_setCol_other h3
      (colVals_setCol_other h2 (colVals_setCol_other h1 h)))
  · exact h

theorem colCells_tbStep {t : DF} {c : String} {P : Val → Prop}
    (hne : "total_bytes" ≠ c) (h : ColCells t c P) :
    ColCells (totalBytesStep t) c P := by
  unfold totalBytesStep
  exact colCells_ite_setCol hne h

theorem colCells_tpStep {t : DF} {c : String} {P : Val → Prop}
    (hne : "total_packets" ≠ c) (h : ColCells t c P) :
    ColCells (totalPacketsStep t) c P := by
  unfold totalPacketsStep
  exact colCells_ite_setCol hne h

theorem colCells_bppStep {t : DF} {c : String} {P : Val → Prop}
    (hne : "bytes_per_packet" ≠ c) (h : ColCells t c P) :
    ColCells (bppStep t) c P := by
  unfold bppStep
  exact colCells_ite_setCol hne h

theorem colCells_durStep {t : DF} {c : String} {P : Val → Prop}
    (hne : "duration_category" ≠ c) (h : ColCells t c P) :
    ColCells (durCatStep t) c P := by
  unfold durCatStep
  exact colCells_ite_setCol hne h

theorem colCells_portStep {t : DF} {c : String} {P : Val → Prop}
    (hne : "port_category" ≠ c) (h : ColCells t c P) :
    ColCells (portCatStep t) c P := by
  unfold portCatStep
  exact colCells_ite_setCol hne h

theorem colCells_flagStep {t : DF} {c : String} {P : Val → Prop}
    (h1 : "has_syn" ≠ c) (h2 : "has_ack" ≠ c)
    (h3 : "has_fin" ≠ c) (h4 : "has_rst" ≠ c) (h : ColCells t c P) :
    ColCells (flagStep t) c P := by
  unfold flagStep
  split
  · exact colCells_setCol_other h4 (colCells_setCol_other h3
      (colCells_setCol_other h2 (colCells_setCol_other h1 h)))
  · exact h

/-! ## Invariants of the normalized table (pass 1) -/

theorem fillPhase_colsFixed (df : DF) : ColsFixed (fillPhase df) := by
  unfold fillPhase labelStep boolStep catStep coerceStep
  exact colsFixed_mapCol (colsFixed_mapCol (colsFixed_foldl_mapCol _ _ _
    (colsFixed_foldl_mapCol _ _ _ (colsFixed_foldl_mapCol _ _ _
      (colsFixed_trim_rename df)))))

theorem colsFixed_tbStep {t : DF} (h : ColsFixed t) :
    ColsFixed (totalBytesStep t) := by
  unfold totalBytesStep
  exact colsFixed_ite_setCol h (by decide)

theorem colsFixed_tpStep {t : DF} (h : ColsFixed t) :
    ColsFixed (totalPacketsStep t) := by
  unfold totalPacketsStep
  exact colsFixed_ite_setCol h (by decide)

theorem colsFixed_bppStep {t : DF} (h : ColsFixed t) :
    ColsFixed (bppStep t) := by
  unfold bppStep
  exact colsFixed_ite_setCol h (by decide)

theorem colsFixed_durStep {t : DF} (h : ColsFixed t) :
    ColsFixed (durCatStep t) := by
  unfold durCatStep
  exact colsFixed_ite_setCol h (by decide)

theorem colsFixed_portStep {t : DF} (h : ColsFixed t) :
    ColsFixed (portCatStep t) := by
  unfold portCatStep
  exact colsFixed_ite_setCol h (by decide)

theorem colsFixed_flagStep {t : DF} (h : ColsFixed t) :
    ColsFixed (flagStep t) := by
  unfold flagStep
  split
  · exact colsFixed_setCol (colsFixed_setCol (colsFixed_setCol
      (colsFixed_setCol h (by decide)) (by decide)) (by decide)) (by decide)
  · exact h

theorem norm_colsFixed (df : DF) : ColsFixed (rearrange_threat_data df) := by
  rw [rearrange_eq]
  exact colsFixed_flagStep (colsFixed_portStep (colsFixed_durStep
    (colsFixed_bppStep (colsFixed_tpStep (colsFixed_tbStep
      (fillPhase_colsFixed df))))))

theorem fillVal_pres_ne_missing (d : Val) :
    ∀ v : Val, v ≠ Val.missing → fillVal d v ≠ Val.missing := by
  intro v hv
  rw [fillVal_of_ne_missing hv]
  exact hv

theorem fillPhase_numClean (df : DF) (c : String) (hc : c ∈ numeric_cols) :
    ColCells (fillPhase df) c (fun v => v.isNum = true) := by
  unfold fillPhase labelStep boolStep catStep coerceStep
  exact colCells_mapCol (colCells_mapCol (colCells_foldl_mapCol
    (colCells_foldl_mapCol (colCells_foldl_mapCol_est hc coerceNum_isNum)
      (fun v hv => fillVal_isNum v hv)) (fun v hv => fillVal_isNum v hv))
    (fun v hv => fillVal_isNum v hv)) (fun v hv => fillVal_isNum v hv)

theorem norm_numClean (df : DF) (c : String) (hc : c ∈ numeric_cols) :
    ColCells (rearrange_threat_data df) c (fun v => v.isNum = true) := by
  rw [rearrange_eq]
  have hne := numeric_ne_derived c hc
  exact colCells_flagStep (hne _ (by decide)) (hne _ (by decide))
    (hne _ (by decide)) (hne _ (by decide))
    (colCells_portStep (hne _ (by decide)) (colCells_durStep (hne _ (by decide))
      (colCells_bppStep (hne _ (by decide)) (colCells_tpStep (hne _ (by decide))
        (colCells_tbStep (hne _ (by decide)) (fillPhase_numClean df c hc))))))

theorem fillPhase_noMissing_cat (df : DF) (c : String) (hc : c ∈ categorical_cols) :
    ColCells (fillPhase df) c (fun v => v ≠ Val.missing) := by
  unfold fillPhase labelStep boolStep catStep
  exact colCells_mapCol (colCells_mapCol (colCells_foldl_mapCol
    (colCells_foldl_mapCol_est hc (fun v => fillVal_ne_missing (by decide) v))
    (fillVal_pres_ne_missing _)) (fillVal_pres_ne_missing _))
    (fillVal_pres_ne_missing _)

theorem fillPhase_noMissing_bool (df : DF) (c : String) (hc : c ∈ boolean_cols) :
    ColCells (fillPhase df) c (fun v => v ≠ Val.missing) := by
  unfold fillPhase labelStep boolStep
  exact colCells_mapCol (colCells_mapCol (colCells_foldl_mapCol_est hc
    (fun v => fillVal_ne_missing (by decide) v)) (fillVal_pres_ne_missing _))
    (fillVal_pres_ne_missing _)

theorem fillPhase_noMissing_label (df : DF) :
    ColCells (fillPhase df) "label" (fun v => v ≠ Val.missing) := by
  unfold fillPhase labelStep
  exact colCells_mapCol (colCells_mapCol_self
    (fun v => fillVal_ne_missing (by decide) v)) (fillVal_pres_ne_missing _)

theorem fillPhase_noMissing_detlabel (df : DF) :
    ColCells (fillPhase df) "detailed_label" (fun v => v ≠ Val.missing) := by
  unfold fillPhase labelStep
  exact colCells_mapCol_self (fun v => fillVal_ne_missing (by decide) v)

theorem norm_noMissing_filled (df : DF) (c : String)
    (hc : c ∈ categorical_cols ∨ c ∈ boolean_cols ∨ c = "label" ∨ c = "detailed_label") :
    ColCells (rearrange_threat_data df) c (fun v => v ≠ Val.missing) := by
  rw [rearrange_eq]
  have hbase : ColCells (fillPhase df) c (fun v => v ≠ Val.missing) := by
    rcases hc with h | h | h | h
    · exact fillPhase_noMissing_cat df c h
    · exact fillPhase_noMissing_bool df c h
    · rw [h]
      exact fillPhase_noMissing_label df
    · rw [h]
      exact fillPhase_noMissing_detlabel df
  have hne : ∀ n ∈ derivedNames, n ≠ c := by
    rcases hc with h | h | h | h
    · exact cat_ne_derived c h
    · exact bool_ne_derived c h
    · intro n hn
      rw [h]
      exact (label_ne_derived n hn).1
    · intro n hn
      rw [h]
      exact (label_ne_derived n hn).2
  exact colCells_flagStep (hne _ (by decide)) (hne _ (by decide))
    (hne _ (by decide)) (hne _ (by decide))
    (colCells_portStep (hne _ (by decide)) (colCells_durStep (hne _ (by decide))
      (colCells_bppStep (hne _ (by decide)) (colCells_tpStep (hne _ (by decide))
        (colCells_tbStep (hne _ (by decide)) hbase)))))

theorem norm_tbInv (df : DF) : TBInv (rearrange_threat_data df) := by
  intro hcond
  rw [rearrange_eq] at hcond ⊢
  have hbs : hasCol (flagStep (portCatStep (durCatStep (bppStep
      (totalPacketsStep (totalBytesStep (fillPhase df))))))) "bytes_sent"
      = hasCol (fillPhase df) "bytes_sent" := by
    rw [hasCol_flagStep _ _ (by decide) (by decide) (by decide) (by decide),
      hasCol_portStep _ _ (by decide), hasCol_durStep _ _ (by decide),
      hasCol_bppStep _ _ (by decide), hasCol_tpStep _ _ (by decide),
      hasCol_tbStep _ _ (by decide)]
  have hbr : hasCol (flagStep (portCatStep (durCatStep (bppStep
      (totalPacketsStep (totalBytesStep (fillPhase df))))))) "bytes_received"
      = hasCol (fillPhase df) "bytes_received" := by
    rw [hasCol_flagStep _ _ (by decide) (by decide) (by decide) (by decide),
      hasCol_portStep _ _ (by decide), hasCol_durStep _ _ (by decide),
      hasCol_bppStep _ _ (by decide), hasCol_tpStep _ _ (by decide),
      hasCol_tbStep _ _ (by decide)]
  rw [hbs, hbr] at hcond
  have htb : totalBytesStep (fillPhase df)
      = setCol (fillPhase df) "total_bytes"
          (List.zipWith valAdd (getColD (fillPhase df) "bytes_sent")
            (getColD (fillPhase df) "bytes_received")) := by
    unfold totalBytesStep
    rw [if_pos hcond]
  have hgbs : getColD (flagStep (portCatStep (durCatStep (bppStep
      (totalPacketsStep (totalBytesStep (fillPhase df))))))) "bytes_sent"
      = getColD (fillPhase df) "bytes_sent" := by
    rw [getColD_flagStep _ _ (by decide) (by decide) (by decide) (by decide),
      getColD_portStep _ _ (by decide), getColD_durStep _ _ (by decide),
      getColD_bppStep _ _ (by decide), getColD_tpStep _ _ (by decide),
      getColD_tbStep _ _ (by decide)]
  have hgbr : getColD (flagStep (portCatStep (durCatStep (bppStep
      (totalPacketsStep (totalBytesStep (fillPhase df))))))) "bytes_received"
      = getColD (fillPhase df) "bytes_received" := by
    rw [getColD_flagStep _ _ (by decide) (by decide) (by decide) (by decide),
      getColD_portStep _ _ (by decide), getColD_durStep _ _ (by decide),
      getColD_bppStep _ _ (by decide), getColD_tpStep _ _ (by decide),
      getColD_tbStep _ _ (by decide)]
  constructor
  · rw [hasCol_flagStep _ _ (by decide) (by decide) (by decide) (by decide),
      hasCol_portStep _ _ (by decide), hasCol_durStep _ _ (by decide),
      hasCol_bppStep _ _ (by decide), hasCol_tpStep _ _ (by decide), htb,
      hasCol_setCol]
    simp
  · rw [hgbs, hgbr]
    apply colVals_flagStep (by decide) (by decide) (by decide) (by decide)
    apply colVals_portStep (by decide)
    apply colVals_durStep (by decide)
    apply colVals_bppStep (by decide)
    apply colVals_tpStep (by decide)
    rw [htb]
    exact colVals_setCol_self _ _ _

theorem norm_tpInv (df : DF) : TPInv (rearrange_threat_data df) := by
  intro hcond
  rw [rearrange_eq] at hcond ⊢
  have hps : hasCol (flagStep (portCatStep (durCatStep (bppStep
      (totalPacketsStep (totalBytesStep (fillPhase df))))))) "packets_sent"
      = hasCol (totalBytesStep (fillPhase df)) "packets_sent" := by
    rw [hasCol_flagStep _ _ (by decide) (by decide) (by decide) (by decide),
      hasCol_portStep _ _ (by decide), hasCol_durStep _ _ (by decide),
      hasCol_bppStep _ _ (by decide), hasCol_tpStep _ _ (by decide)]
  have hpr : hasCol (flagStep (portCatStep (durCatStep (bppStep
      (totalPacketsStep (totalBytesStep (fillPhase df))))))) "packets_received"
      = hasCol (totalBytesStep (fillPhase df)) "packets_received" := by
    rw [hasCol_flagStep _ _ (by decide) (by decide) (by decide) (by decide),
      hasCol_portStep _ _ (by decide), hasCol_durStep _ _ (by decide),
      hasCol_bppStep _ _ (by decide), hasCol_tpStep _ _ (by decide)]
  rw [hps, hpr] at hcond
  have htp : totalPacketsStep (totalBytesStep (fillPhase df))
      = setCol (totalBytesStep (fillPhase df)) "total_packets"
          (List.zipWith valAdd
            (getColD (totalBytesStep (fillPhase df)) "packets_sent")
            (getColD (totalBytesStep (fillPhase df)) "packets_received")) := by
    unfold totalPacketsStep
    rw [if_pos hcond]
  have hgps : getColD (flagStep (portCatStep (durCatStep (bppStep
      (totalPacketsStep (totalBytesStep (fillPhase df))))))) "packets_sent"
      = getColD (totalBytesStep (fillPhase df)) "packets_sent" := by
    rw [getColD_flagStep _ _ (by decide) (by decide) (by decide) (by decide),
      getColD_portStep _ _ (by decide), getColD_durStep _ _ (by decide),
      getColD_bppStep _ _ (by decide), getColD_tpStep _ _ (by decide)]
  have hgpr : getColD (flagStep (portCatStep (durCatStep (bppStep
      (totalPacketsStep (totalBytesStep (fillPhase df))))))) "packets_received"
      = getColD (totalBytesStep (fillPhase df)) "packets_received" := by
    rw [getColD_flagStep _ _ (by decide) (by decide) (by decide) (by decide),
      getColD_portStep _ _ (by decide), getColD_durStep _ _ (by decide),
      getColD_bppStep _ _ (by decide), getColD_tpStep _ _ (by decide)]
  constructor
  · rw [hasCol_flagStep _ _ (by decide) (by decide) (by decide) (by decide),
      hasCol_portStep _ _ (by decide), hasCol_durStep _ _ (by decide),
      hasCol_bppStep _ _ (by decide), htp, hasCol_setCol]
    simp
  · rw [hgps, hgpr]
    apply colVals_flagStep (by decide) (by decide) (by decide) (by decide)
    apply colVals_portStep (by decide)
    apply colVals_durStep (by decide)
    apply colVals_bppStep (by decide)
    rw [htp]
    exact colVals_setCol_self _ _ _

theorem norm_bppInv (df : DF) : BPPInv (rearrange_threat_data df) := by
  intro hcond
  rw [rearrange_eq] at hcond ⊢
  have htbc : hasCol (flagStep (portCatStep (durCatStep (bppStep
      (totalPacketsStep (totalBytesStep (fillPhase df))))))) "total_bytes"
      = hasCol (totalPacketsStep (totalBytesStep (fillPhase df))) "total_bytes" := by
    rw [hasCol_flagStep _ _ (by decide) (by decide) (by decide) (by decide),
      hasCol_portStep _ _ (by decide), hasCol_durStep _ _ (by decide),
      hasCol_bppStep _ _ (by decide)]
  have htpc : hasCol (flagStep (portCatStep (durCatStep (bppStep
      (totalPacketsStep (totalBytesStep (fillPhase df))))))) "total_packets"
      = hasCol (totalPacketsStep (totalBytesStep (fillPhase df))) "total_packets" := by
    rw [hasCol_flagStep _ _ (by decide) (by decide) (by decide) (by decide),
      hasCol_portStep _ _ (by decide), hasCol_durStep _ _ (by decide),
      hasCol_bppStep _ _ (by decide)]
  rw [htbc, htpc] at hcond
  have hbpp : bppStep (totalPacketsStep (totalBytesStep (fillPhase df)))
      = setCol (totalPacketsStep (totalBytesStep (fillPhase df))) "bytes_per_packet"
          (List.zipWith bppCell
            (getColD (totalPacketsStep (totalBytesStep (fillPhase df))) "total_bytes")
            (getColD (totalPacketsStep (totalBytesStep (fillPhase df)))
              "total_packets")) := by
    unfold bppStep
    rw [if_pos hcond]
  have hgtb : getColD (flagStep (portCatStep (durCatStep (bppStep
      (totalPacketsStep (totalBytesStep (fillPhase df))))))) "total_bytes"
      = getColD (totalPacketsStep (totalBytesStep (fillPhase df))) "total_bytes" := by
    rw [getColD_flagStep _ _ (by decide) (by decide) (by decide) (by decide),
      getColD_portStep _ _ (by decide), getColD_durStep _ _ (by decide),
      getColD_bppStep _ _ (by decide)]
  have hgtp : getColD (flagStep (portCatStep (durCatStep (bppStep
      (totalPacketsStep (totalBytesStep (fillPhase df))))))) "total_packets"
      = getColD (totalPacketsStep (totalBytesStep (fillPhase df))) "total_packets" := by
    rw [getColD_flagStep _ _ (by decide) (by decide) (by decide) (by decide),
      getColD_portStep _ _ (by decide), getColD_durStep _ _ (by decide),
      getColD_bppStep _ _ (by decide)]
  constructor
  · rw [hasCol_flagStep _ _ (by decide) (by decide) (by decide) (by decide),
      hasCol_portStep _ _ (by decide), hasCol_durStep _ _ (by decide), hbpp,
      hasCol_setCol]
    simp
  · rw [hgtb, hgtp]
    apply colVals_flagStep (by decide) (by decide) (by decide) (by decide)
    apply colVals_portStep (by decide)
    apply colVals_durStep (by decide)
    rw [hbpp]
    exact colVals_setCol_self _ _ _

theorem norm_durInv (df : DF) : DurInv (rearrange_threat_data df) := by
  intro hcond
  rw [rearrange_eq] at hcond ⊢
  have hdc : hasCol (flagStep (portCatStep (durCatStep (bppStep
      (totalPacketsStep (totalBytesStep (fillPhase df))))))) "duration"
      = hasCol (bppStep (totalPacketsStep (totalBytesStep (fillPhase df))))
          "duration" := by
    rw [hasCol_flagStep _ _ (by decide) (by decide) (by decide) (by decide),
      hasCol_portStep _ _ (by decide), hasCol_durStep _ _ (by decide)]
  rw [hdc] at hcond
  have hdur : durCatStep (bppStep (totalPacketsStep (totalBytesStep (fillPhase df))))
      = setCol (bppStep (totalPacketsStep (totalBytesStep (fillPhase df))))
          "duration_category"
          ((getColD (bppStep (totalPacketsStep (totalBytesStep (fillPhase df))))
            "duration").map durCatCell) := by
    unfold durCatStep
    rw [if_pos hcond]
  have hgd : getColD (flagStep (portCatStep (durCatStep (bppStep
      (totalPacketsStep (totalBytesStep (fillPhase df))))))) "duration"
      = getColD (bppStep (totalPacketsStep (totalBytesStep (fillPhase df))))
          "duration" := by
    rw [getColD_flagStep _ _ (by decide) (by decide) (by decide) (by decide),
      getColD_portStep _ _ (by decide), getColD_durStep _ _ (by decide)]
  constructor
  · rw [hasCol_flagStep _ _ (by decide) (by decide) (by decide) (by decide),
      hasCol_portStep _ _ (by decide), hdur, hasCol_setCol]
    simp
  · rw [hgd]
    apply colVals_flagStep (by decide) (by decide) (by decide) (by decide)
    apply colVals_portStep (by decide)
    rw [hdur]
    exact colVals_setCol_self _ _ _

theorem norm_portInv (df : DF) : PortInv (rearrange_threat_data df) := by
  intro hcond
  rw [rearrange_eq] at hcond ⊢
  have hdp : hasCol (flagStep (portCatStep (durCatStep (bppStep
      (totalPacketsStep (totalBytesStep (fillPhase df))))))) "dst_port"
      = hasCol (durCatStep (bppStep (totalPacketsStep (totalBytesStep
          (fillPhase df))))) "dst_port" := by
    rw [hasCol_flagStep _ _ (by decide) (by decide) (by decide) (by decide),
      hasCol_portStep _ _ (by decide)]
  rw [hdp] at hcond
  have hport : portCatStep (durCatStep (bppStep (totalPacketsStep
      (totalBytesStep (fillPhase df)))))
      = setCol (durCatStep (bppStep (totalPacketsStep (totalBytesStep
          (fillPhase df))))) "port_category"
          ((getColD (durCatStep (bppStep (totalPacketsStep (totalBytesStep
            (fillPhase df))))) "dst_port").map portCatCell) := by
    unfold portCatStep
    rw [if_pos hcond]
  have hgp : getColD (flagStep (portCatStep (durCatStep (bppStep
      (totalPacketsStep (totalBytesStep (fillPhase df))))))) "dst_port"
      = getColD (durCatStep (bppStep (totalPacketsStep (totalBytesStep
          (fillPhase df))))) "dst_port" := by
    rw [getColD_flagStep _ _ (by decide) (by decide) (by decide) (by decide),
      getColD_portStep _ _ (by decide)]
  constructor
  · rw [hasCol_flagStep _ _ (by decide) (by decide) (by decide) (by decide),
      hport, hasCol_setCol]
    simp
  · rw [hgp]
    apply colVals_flagStep (by decide) (by decide) (by decide) (by decide)
    rw [hport]
    exact colVals_setCol_self _ _ _

theorem norm_flagInv (df : DF) : FlagInv (rearrange_threat_data df) := by
  intro hcond
  rw [rearrange_eq] at hcond ⊢
  have hh : hasCol (flagStep (portCatStep (durCatStep (bppStep
      (totalPacketsStep (totalBytesStep (fillPhase df))))))) "history"
      = hasCol (portCatStep (durCatStep (bppStep (totalPacketsStep
          (totalBytesStep (fillPhase df)))))) "history" := by
    rw [hasCol_flagStep _ _ (by decide) (by decide) (by decide) (by decide)]
  rw [hh] at hcond
  have hflag : flagStep (portCatStep (durCatStep (bppStep (totalPacketsStep
      (totalBytesStep (fillPhase df))))))
      = setCol (setCol (setCol (setCol (portCatStep (durCatStep (bppStep
          (totalPacketsStep (totalBytesStep (fillPhase df)))))) "has_syn"
          ((getColD (portCatStep (durCatStep (bppStep (totalPacketsStep
            (totalBytesStep (fillPhase df)))))) "history").map (hasFlagCell 'S')))
          "has_ack"
          ((getColD (portCatStep (durCatStep (bppStep (totalPacketsStep
            (totalBytesStep (fillPhase df)))))) "history").map (hasFlagCell 'A')))
          "has_fin"
          ((getColD (portCatStep (durCatStep (bppStep (totalPacketsStep
            (totalBytesStep (fillPhase df)))))) "history").map (hasFlagCell 'F')))
          "has_rst"
          ((getColD (portCatStep (durCatStep (bppStep (totalPacketsStep
            (totalBytesStep (fillPhase df)))))) "history").map (hasFlagCell 'R')) := by
    unfold flagStep
    rw [if_pos hcond]
  have hgh : getColD (flagStep (portCatStep (durCatStep (bppStep
      (totalPacketsStep (totalBytesStep (fillPhase df))))))) "history"
      = getColD (portCatStep (durCatStep (bppStep (totalPacketsStep
          (totalBytesStep (fillPhase df)))))) "history" := by
    rw [getColD_flagStep _ _ (by decide) (by decide) (by decide) (by decide)]
  refine ⟨⟨?_, ?_⟩, ⟨?_, ?_⟩, ⟨?_, ?_⟩, ⟨?_, ?_⟩⟩
  · rw [hflag, hasCol_setCol, hasCol_setCol, hasCol_setCol, hasCol_setCol]
    simp
  · rw [hgh, hflag]
    exact colVals_setCol_other (by decide) (colVals_setCol_other (by decide)
      (colVals_setCol_other (by decide) (colVals_setCol_self _ _ _)))
  · rw [hflag, hasCol_setCol, hasCol_setCol, hasCol_setCol, hasCol_setCol]
    simp
  · rw [hgh, hflag]
    exact colVals_setCol_other (by decide) (colVals_setCol_other (by decide)
      (colVals_setCol_self _ _ _))
  · rw [hflag, hasCol_setCol, hasCol_setCol, hasCol_setCol, hasCol_setCol]
    simp
  · rw [hgh, hflag]
    exact colVals_setCol_other (by decide) (colVals_setCol_self _ _ _)
  · rw [hflag, hasCol_setCol, hasCol_setCol, hasCol_setCol, hasCol_setCol]
    simp
  · rw [hgh, hflag]
    exact colVals_setCol_self _ _ _

/-! ## Second-pass identity lemmas -/

theorem trimCols_id {t : DF} (h : ColsFixed t) : trimCols t = t := by
  unfold trimCols
  apply map_id_of_fix
  intro p hp
  rw [(h p hp).1]

theorem renameCols_id {t : DF} (h : ColsFixed t) : renameCols t = t := by
  unfold renameCols
  apply map_id_of_fix
  intro p hp
  rw [(h p hp).2]

theorem mapCol_id {t : DF} {c : String} {f : Val → Val}
    (h : ∀ p ∈ t, p.1 = c → ∀ v ∈ p.2, f v = v) : mapCol t c f = t := by
  unfold mapCol
  apply map_id_of_fix
  intro p hp
  by_cases hpc : p.1 = c
  · rw [if_pos hpc, map_id_of_fix p.2 f (h p hp hpc)]
  · rw [if_neg hpc]

theorem foldl_mapCol_id {f : Val → Val} (cols : List String) (t : DF)
    (h : ∀ c ∈ cols, ∀ p ∈ t, p.1 = c → ∀ v ∈ p.2, f v = v) :
    cols.foldl (fun d c => mapCol d c f) t = t := by
  induction cols with
  | nil => rfl
  | cons c cs ih =>
    rw [List.foldl_cons, mapCol_id (h c (List.mem_cons_self c cs))]
    exact ih (fun c' hc' => h c' (List.mem_cons_of_mem c hc'))

theorem coerceStep_id {t : DF}
    (h : ∀ c ∈ numeric_cols, ColCells t c (fun v => v.isNum = true)) :
    coerceStep t = t := by
  unfold coerceStep
  exact foldl_mapCol_id _ _
    (fun c hc p hp hpc v hv => coerceNum_of_isNum (h c hc p hp hpc v hv))

theorem catStep_id {t : DF}
    (h : ∀ c ∈ categorical_cols, ColCells t c (fun v => v ≠ Val.missing)) :
    catStep t = t := by
  unfold catStep
  exact foldl_mapCol_id _ _
    (fun c hc p hp hpc v hv => fillVal_of_ne_missing (h c hc p hp hpc v hv))

theorem boolStep_id {t : DF}
    (h : ∀ c ∈ boolean_cols, ColCells t c (fun v => v ≠ Val.missing)) :
    boolStep t = t := by
  unfold boolStep
  exact foldl_mapCol_id _ _
    (fun c hc p hp hpc v hv => fillVal_of_ne_missing (h c hc p hp hpc v hv))

theorem labelStep_id {t : DF}
    (h1 : ColCells t "label" (fun v => v ≠ Val.missing))
    (h2 : ColCells t "detailed_label" (fun v => v ≠ Val.missing)) :
    labelStep t = t := by
  unfold labelStep
  rw [mapCol_id (fun p hp hpc v hv => fillVal_of_ne_missing (h1 p hp hpc v hv)),
    mapCol_id (fun p hp hpc v hv => fillVal_of_ne_missing (h2 p hp hpc v hv))]

theorem setCol_id {t : DF} {c : String} {v : List Val}
    (hhc : hasCol t c = true) (h : ColVals t c v) : setCol t c v = t := by
  unfold setCol
  rw [if_pos hhc]
  apply map_id_of_fix
  intro p hp
  by_cases hpc : p.1 = c
  · rw [if_pos hpc, ← h p hp hpc, ← hpc]
  · rw [if_neg hpc]

theorem tbStep_id {t : DF} (hinv : TBInv t) : totalBytesStep t = t := by
  by_cases hb : (hasCol t "bytes_sent" && hasCol t "bytes_received") = true
  · obtain ⟨hhc, hvals⟩ := hinv hb
    unfold totalBytesStep
    rw [if_pos hb]
    exact setCol_id hhc hvals
  · unfold totalBytesStep
    rw [if_neg hb]

theorem tpStep_id {t : DF} (hinv : TPInv t) : totalPacketsStep t = t := by
  by_cases hb : (hasCol t "packets_sent" && hasCol t "packets_received") = true
  · obtain ⟨hhc, hvals⟩ := hinv hb
    unfold totalPacketsStep
    rw [if_pos hb]
    exact setCol_id hhc hvals
  · unfold totalPacketsStep
    rw [if_neg hb]

theorem bppStep_id {t : DF} (hinv : BPPInv t) : bppStep t = t := by
  by_cases hb : (hasCol t "total_bytes" && hasCol t "total_packets") = true
  · obtain ⟨hhc, hvals⟩ := hinv hb
    unfold bppStep
    rw [if_pos hb]
    exact setCol_id hhc hvals
  · unfold bppStep
    rw [if_neg hb]

theorem durStep_id {t : DF} (hinv : DurInv t) : durCatStep t = t := by
  by_cases hb : hasCol t "duration" = true
  · obtain ⟨hhc, hvals⟩ := hinv hb
    unfold durCatStep
    rw [if_pos hb]
    exact setCol_id hhc hvals
  · unfold durCatStep
    rw [if_neg hb]

theorem portStep_id {t : DF} (hinv : PortInv t) : portCatStep t = t := by
  by_cases hb : hasCol t "dst_port" = true
  · obtain ⟨hhc, hvals⟩ := hinv hb
    unfold portCatStep
    rw [if_pos hb]
    exact setCol_id hhc hvals
  · unfold portCatStep
    rw [if_neg hb]

theorem flagStep_id {t : DF} (hinv : FlagInv t) : flagStep t = t := by
  by_cases hb : hasCol t "history" = true
  · obtain ⟨⟨hh1, hv1⟩, ⟨hh2, hv2⟩, ⟨hh3, hv3⟩, ⟨hh4, hv4⟩⟩ := hinv hb
    unfold flagStep
    rw [if_pos hb]
    show setCol (setCol (setCol (setCol t "has_syn" _) "has_ack" _)
      "has_fin" _) "has_rst" _ = t
    rw [setCol_id hh1 hv1, setCol_id hh2 hv2, setCol_id hh3 hv3,
      setCol_id hh4 hv4]
  · unfold flagStep
    rw [if_neg hb]

/-- C2: both port categorization functions return "unknown" at 0,
"well_known" on 1..1023, "registered" on 1024..49151, "dynamic" from
49152 up, and agree on every integer port. -/
theorem C2_port_category_boundaries (p : Int) :
    categorize_port p = categorize_port_flow (some (p : Rat))
    ∧ (p = 0 → categorize_port p = "unknown")
    ∧ (1 ≤ p → p ≤ 1023 → categorize_port p = "well_known")
    ∧ (1024 ≤ p → p ≤ 49151 → categorize_port p = "registered")
    ∧ (49152 ≤ p → categorize_port p = "dynamic") := by
  refine ⟨?_, ?_, ?_, ?_, ?_⟩
  · unfold categorize_port categorize_port_flow
    have h0 : ((p : Rat) = 0) ↔ (p = 0) := by
      constructor <;> intro h <;> exact_mod_cast h
    have h1 : ((p : Rat) < 1024) ↔ (p < 1024) := by
      constructor <;> intro h <;> exact_mod_cast h
    have h2 : ((p : Rat) < 49152) ↔ (p < 49152) := by
      constructor <;> intro h <;> exact_mod_cast h
    simp only [h0, h1, h2]
  · intro h; simp [categorize_port, h]
  · intro h1 h2
    have hne : p ≠ 0 := by omega
    have hlt : p < 1024 := by omega
    simp [categorize_port, hne, hlt]
  · intro h1 h2
    have hne : p ≠ 0 := by omega
    have hge : ¬ p < 1024 := by omega
    have hlt : p < 49152 := by omega
    simp [categorize_port, hne, hge, hlt]
  · intro h1
    have hne : p ≠ 0 := by omega
    have hge : ¬ p < 1024 := by omega
    have hge2 : ¬ p < 49152 := by omega
    simp [categorize_port, hne, hge, hge2]

/-- Witness for C2 at the spec's sample and boundary ports. -/
theorem C2_port_category_boundaries_witness :
    categorize_port 0 = "unknown"
    ∧ categorize_port 80 = "well_known"
    ∧ categorize_port 1023 = "well_known"
    ∧ categorize_port 1024 = "registered"
    ∧ categorize_port 8080 = "registered"
    ∧ categorize_port 49151 = "registered"
    ∧ categorize_port 49152 = "dynamic"
    ∧ categorize_port 50000 = "dynamic"
    ∧ categorize_port 443 = categorize_port_flow (some ((443 : Int) : Rat)) :=
  ⟨(C2_port_category_boundaries 0).2.1 rfl,
   (C2_port_category_boundaries 80).2.2.1 (by decide) (by decide),
   (C2_port_category_boundaries 1023).2.2.1 (by decide) (by decide),
   (C2_port_category_boundaries 1024).2.2.2.1 (by decide) (by decide),
   (C2_port_category_boundaries 8080).2.2.2.1 (by decide) (by decide),
   (C2_port_category_boundaries 49151).2.2.2.1 (by decide) (by decide),
   (C2_port_category_boundaries 49152).2.2.2.2 (by decide),
   (C2_port_category_boundaries 50000).2.2.2.2 (by decide),
   (C2_port_category_boundaries 443).1⟩

/-- C3: the Flow Normalizer is idempotent — applying
`rearrange_threat_data` to its own full normalized output changes no
column name and no cell value. -/
theorem C3_normalizer_idempotent (df : DF) :
    rearrange_threat_data (rearrange_threat_data df) = rearrange_threat_data df := by
  have hfix := norm_colsFixed df
  have e1 : trimCols (rearrange_threat_data df) = rearrange_threat_data df :=
    trimCols_id hfix
  have e2 : renameCols (rearrange_threat_data df) = rearrange_threat_data df :=
    renameCols_id hfix
  have e3 : coerceStep (rearrange_threat_data df) = rearrange_threat_data df :=
    coerceStep_id (fun c hc => norm_numClean df c hc)
  have e4 : catStep (rearrange_threat_data df) = rearrange_threat_data df :=
    catStep_id (fun c hc => norm_noMissing_filled df c (Or.inl hc))
  have e5 : boolStep (rearrange_threat_data df) = rearrange_threat_data df :=
    boolStep_id (fun c hc => norm_noMissing_filled df c (Or.inr (Or.inl hc)))
  have e6 : labelStep (rearrange_threat_data df) = rearrange_threat_data df :=
    labelStep_id
      (norm_noMissing_filled df "label" (Or.inr (Or.inr (Or.inl rfl))))
      (norm_noMissing_filled df "detailed_label" (Or.inr (Or.inr (Or.inr rfl))))
  have e7 := tbStep_id (norm_tbInv df)
  have e8 := tpStep_id (norm_tpInv df)
  have e9 := bppStep_id (norm_bppInv df)
  have e10 := durStep_id (norm_durInv df)
  have e11 := portStep_id (norm_portInv df)
  have e12 := flagStep_id (norm_flagInv df)
  rw [rearrange_eq (rearrange_threat_data df)]
  rw [show fillPhase (rearrange_threat_data df) = rearrange_threat_data df from by
    unfold fillPhase
    rw [e1, e2, e3, e4, e5, e6]]
  rw [e7, e8, e9, e10, e11, e12]

/-- C6: numeric coercion is total — every cell coerces to a number,
coercion failures (non-numeric strings) and missing values become 0,
and after normalization every cell of a designated numeric column
present in the table is numeric. -/
theorem C6_numeric_coercion_total (df : DF) (c : String)
    (hc : c ∈ numeric_cols) :
    (∀ v : Val, (coerceNum v).isNum = true)
    ∧ (∀ s : String, parseNum s = none → coerceNum (Val.str s) = Val.num 0)
    ∧ coerceNum Val.missing = Val.num 0
    ∧ ColCells (rearrange_threat_data df) c (fun v => v.isNum = true) := by
  refine ⟨coerceNum_isNum, ?_, rfl, norm_numClean df c hc⟩
  intro s hs
  simp [coerceNum, hs]

/-- Witness for C6: a dst_port column holding a non-numeric string, a
missing value, and a number comes out as [0, 0, 5]. -/
theorem C6_numeric_coercion_total_witness :
    "dst_port" ∈ numeric_cols
    ∧ getColD (rearrange_threat_data
        [("dst_port", [Val.str "abc", Val.missing, Val.num 5])]) "dst_port"
      = [Val.num 0, Val.num 0, Val.num 5]
    ∧ ColCells (rearrange_threat_data
        [("dst_port", [Val.str "abc", Val.missing, Val.num 5])]) "dst_port"
        (fun v => v.isNum = true) :=
  ⟨by decide, by decide,
   (C6_numeric_coercion_total
     [("dst_port", [Val.str "abc", Val.missing, Val.num 5])] "dst_port"
     (by decide)).2.2.2⟩

/-- C10: the client's load path fills every missing value in every
column with the number 0 — keeping names and non-missing values — so no
missing value survives, and the normalizer's per-column-class policy
(e.g. "unknown" for categoricals) is not what is applied here. -/
theorem C10_load_data_fillna_zero (df : DF) :
    (∀ p ∈ load_data_fill df,
      ∃ q ∈ df, p.1 = q.1 ∧ p.2 = q.2.map (fillVal (Val.num 0)))
    ∧ fillVal (Val.num 0) Val.missing = Val.num 0
    ∧ (∀ v : Val, v ≠ Val.missing → fillVal (Val.num 0) v = v)
    ∧ (∀ p ∈ load_data_fill df, ∀ v ∈ p.2, v ≠ Val.missing) := by
  refine ⟨?_, rfl, fun v hv => fillVal_of_ne_missing hv, ?_⟩
  · intro p hp
    obtain ⟨q, hq, hpq⟩ := List.mem_map.mp hp
    exact ⟨q, hq, by rw [← hpq], by rw [← hpq]⟩
  · intro p hp v hv
    obtain ⟨q, hq, hpq⟩ := List.mem_map.mp hp
    rw [← hpq] at hv
    obtain ⟨w, hw, hwv⟩ := List.mem_map.mp hv
    rw [← hwv]
    exact fillVal_ne_missing (by decide) w

/-- Witness for C10: a missing cell in the categorical `protocol`
column becomes the number 0 on the load path, where the Flow Normalizer
would have produced the string "unknown". -/
theorem C10_load_data_fillna_zero_witness :
    load_data_fill [("protocol", [Val.missing])] = [("protocol", [Val.num 0])]
    ∧ rearrange_threat_data [("protocol", [Val.missing])]
        = [("protocol", [Val.str "unknown"])]
    ∧ (Val.num 0 : Val) ≠ Val.missing :=
  ⟨by decide, by decide,
   (C10_load_data_fillna_zero [("protocol", [Val.missing])]).2.2.2
     ("protocol", [Val.num 0]) (by decide) (Val.num 0) (by decide)⟩

end NTD
